import Mathlib

/-!
# Verification of the hitl-cli end-to-end-encrypted MCP proxy

Shallow embedding of the E2EE proxy of the hitl-cli repository
(src/hitl_cli/proxy_handler.py, src/hitl_cli/proxy_handler_v2.py,
src/hitl_cli/crypto.py) together with proofs of the testable properties
stated in its specification.

Conventions of the embedding:

* Byte strings are `List Nat` with every element `< 256`; text (Unicode
  code points) is `List Nat` as well.
* The NaCl `Box` primitive (Curve25519 + XSalsa20-Poly1305, an external
  library, not part of the repository) is modelled as an idealized
  authenticated public-key encryption scheme: Diffie-Hellman key agreement
  is genuine modular exponentiation (so the two directions of the channel
  agree on the shared secret), the stream cipher is a genuine XOR stream,
  and the Poly1305 authenticator is idealized as an injective function of
  (shared key, nonce, ciphertext body), giving perfect integrity where the
  real construction gives computational integrity.  The random nonce the
  real `box.encrypt` draws internally is an explicit parameter.
* Base64 is modelled at the level of sextet values 0..63 (pad symbol 64);
  the final injective mapping of sextets onto ASCII characters is omitted.
* Python `json.dumps` (stdlib, external) is modelled faithfully for the
  value universe the proxy serializes — nulls, booleans, integers,
  strings, arrays, objects — with the default separators and the default
  ensure-ascii escaping; code points are restricted to the basic
  multilingual plane (no surrogate-pair escapes).
-/

namespace HitlCli

/-! ## Bytes -/

/-- All elements of the list are bytes (values `< 256`). -/
def allBytes (bs : List Nat) : Bool := bs.all (fun b => b < 256)

/-- Little-endian byte serialization of a natural number, fixed width. -/
def natToBytesLE : Nat → Nat → List Nat
  | 0, _ => []
  | len + 1, k => (k % 256) :: natToBytesLE len (k / 256)

/-- Little-endian byte deserialization. -/
def bytesToNatLE : List Nat → Nat
  | [] => 0
  | b :: bs => b + 256 * bytesToNatLE bs

/-! ## Base64 (sextet level)

The codec of `encrypt_arguments` / `decrypt_response` transports the
sealed bytes through `base64.b64encode` / `base64.b64decode`.  A base64
text is modelled as its list of sextet values (0..63), with 64 standing
for the padding character. -/

/-- Model of `base64.b64encode`: bytes to sextet values, RFC 4648. -/
def b64encode : List Nat → List Nat
  | a :: b :: c :: rest =>
      a / 4 :: ((a % 4) * 16 + b / 16) :: ((b % 16) * 4 + c / 64) :: (c % 64) ::
        b64encode rest
  | [a, b] => [a / 4, (a % 4) * 16 + b / 16, (b % 16) * 4, 64]
  | [a] => [a / 4, (a % 4) * 16, 64, 64]
  | [] => []

/-- Model of `base64.b64decode`: sextet values back to bytes, failing on
inputs that are not well-formed base64. -/
def b64decode : List Nat → Option (List Nat)
  | s1 :: s2 :: s3 :: s4 :: rest =>
      if s1 < 64 ∧ s2 < 64 then
        if s3 = 64 ∧ s4 = 64 ∧ rest = [] then
          some [s1 * 4 + s2 / 16]
        else if s3 < 64 ∧ s4 = 64 ∧ rest = [] then
          some [s1 * 4 + s2 / 16, (s2 % 16) * 16 + s3 / 4]
        else if s3 < 64 ∧ s4 < 64 then
          match b64decode rest with
          | some ds => some ((s1 * 4 + s2 / 16) :: ((s2 % 16) * 16 + s3 / 4) ::
              ((s3 % 4) * 64 + s4) :: ds)
          | none => none
        else none
      else none
  | [] => some []
  | _ => none

/-! ## Curve25519 key agreement (idealized)

`nacl.public.PrivateKey` / `PublicKey` / `Box` key agreement is modelled
as Diffie-Hellman over the multiplicative monoid modulo `2^255 - 19`:
a private key is a natural number, the public key is `9 ^ sk mod p`, and
the shared secret of `Box(sk_own, pk_other)` is `pk_other ^ sk_own mod p`.
Commutativity of exponentiation gives the defining property that both ends
of the channel derive the same shared secret. -/

/-- The Curve25519 field prime. -/
def dhP : Nat := 2 ^ 255 - 19

/-- The conventional base point coordinate. -/
def dhG : Nat := 9

/-- Public key derived from a private key. -/
def pubkey (sk : Nat) : Nat := dhG ^ sk % dhP

/-- Shared secret derived by one party from its own private key and the
counterpart public key. -/
def dhShared (sk pk : Nat) : Nat := pk ^ sk % dhP

/-! ## XSalsa20 keystream (idealized) and Poly1305 (idealized) -/

/-- Idealized keystream byte at position `i` for a key and nonce. -/
def keystreamByte (key nonce i : Nat) : Nat := (key + nonce + i) % 256

/-- XOR a byte list against the keystream starting at position `i`. -/
def xorStreamFrom (key nonce : Nat) : Nat → List Nat → List Nat
  | _, [] => []
  | i, b :: bs => (b ^^^ keystreamByte key nonce i) :: xorStreamFrom key nonce (i + 1) bs

/-- XOR a byte list against the keystream (starting at position 0). -/
def xorStream (key nonce : Nat) (m : List Nat) : List Nat := xorStreamFrom key nonce 0 m

/-- Idealized Poly1305 tag over the ciphertext body: an injective function of
(shared key, nonce, body).  32 bytes of key fingerprint, 24 bytes of nonce
fingerprint, then the body itself. -/
def macBytes (shared nonce : Nat) (body : List Nat) : List Nat :=
  natToBytesLE 32 shared ++ natToBytesLE 24 nonce ++ body

/-- Model of `Box.encrypt`: the returned byte string is
nonce (24 bytes) followed by the authenticator followed by the encrypted
body, exactly the (nonce ‖ MAC ‖ ciphertext) layout of NaCl. -/
def boxSeal (shared nonce : Nat) (m : List Nat) : List Nat :=
  natToBytesLE 24 nonce ++ macBytes shared nonce (xorStream shared nonce m) ++
    xorStream shared nonce m

/-- Model of `Box.decrypt`: parse the nonce, recompute the authenticator
over the received body and fail closed unless it matches exactly. -/
def boxOpen (shared : Nat) (c : List Nat) : Option (List Nat) :=
  if c.length < 80 ∨ (c.length - 80) % 2 = 1 then none
  else
    let bodyLen := (c.length - 80) / 2
    let nonce := bytesToNatLE (c.take 24)
    let rest := c.drop 24
    let mac := rest.take (56 + bodyLen)
    let body := rest.drop (56 + bodyLen)
    if mac = macBytes shared nonce body then some (xorStream shared nonce body)
    else none

/-! ## JSON values and the model of `json.dumps`

`encrypt_arguments` serializes the argument mapping with `json.dumps`
(default options: separators are a comma-space and a colon-space, and
ensure-ascii escaping) and encodes the result as UTF-8.  With ensure-ascii
the serialized text is pure ASCII, so the UTF-8 encoding of the text is
the list of its code points. -/

/-- The JSON value universe serialized by the proxy: nulls, booleans,
integers, strings, arrays and objects (ordered key-value lists). -/
inductive Json where
  | null
  | bool (b : Bool)
  | num (n : Int)
  | str (s : List Nat)
  | arr (elems : List Json)
  | obj (members : List (List Nat × Json))

mutual

/-- Strings restricted to the basic multilingual plane (the embedding of
the serializer does not model surrogate-pair escapes). -/
def Json.valid : Json → Bool
  | .null => true
  | .bool _ => true
  | .num _ => true
  | .str s => s.all (fun c => c < 65536)
  | .arr xs => Json.validElems xs
  | .obj ms => Json.validMembers ms

/-- Validity of an array's element list. -/
def Json.validElems : List Json → Bool
  | [] => true
  | x :: xs => Json.valid x && Json.validElems xs

/-- Validity of an object's member list. -/
def Json.validMembers : List (List Nat × Json) → Bool
  | [] => true
  | (k, v) :: ms => k.all (fun c => c < 65536) && Json.valid v && Json.validMembers ms

end

/-- Decimal digit characters, most significant first (structural on fuel;
the fuel argument strictly dominates the number of digits). -/
def natDigitsAux : Nat → Nat → List Nat
  | 0, _ => []
  | fuel + 1, n => if n < 10 then [48 + n] else natDigitsAux fuel (n / 10) ++ [48 + n % 10]

/-- Decimal digit characters of a natural number, most significant first. -/
def natDigits (n : Nat) : List Nat := natDigitsAux (n + 1) n

/-- Serialization of an integer (decimal, minus sign for negatives). -/
def numCodes (n : Int) : List Nat :=
  if n < 0 then 45 :: natDigits n.natAbs else natDigits n.toNat

/-- Lower-case hexadecimal digit character. -/
def hexDigit (d : Nat) : Nat := if d < 10 then 48 + d else 87 + d

/-- Four-digit hexadecimal escape body of a code point. -/
def hex4 (c : Nat) : List Nat :=
  [hexDigit (c / 4096 % 16), hexDigit (c / 256 % 16), hexDigit (c / 16 % 16),
   hexDigit (c % 16)]

/-- The ensure-ascii escaping of one string character: quote and backslash
are backslash-escaped, the five short control escapes are used where
Python uses them, other printable ASCII is literal, everything else
becomes a backslash-u escape. -/
def escChar (c : Nat) : List Nat :=
  if c = 34 then [92, 34]
  else if c = 92 then [92, 92]
  else if c = 8 then [92, 98]
  else if c = 9 then [92, 116]
  else if c = 10 then [92, 110]
  else if c = 12 then [92, 102]
  else if c = 13 then [92, 114]
  else if 32 ≤ c ∧ c ≤ 126 then [c]
  else 92 :: 117 :: hex4 c

/-- Escape a whole string body. -/
def escapeStr : List Nat → List Nat
  | [] => []
  | c :: cs => escChar c ++ escapeStr cs

/-- Serialization of one object member: quoted escaped key, colon-space,
then the value. -/
def memberCodes (k : List Nat) (vCodes : List Nat) : List Nat :=
  34 :: escapeStr k ++ [34, 58, 32] ++ vCodes

mutual

/-- Model of Python `json.dumps` with the default separators: the
serialized text of a value, as a list of ASCII code points. -/
def dumps : Json → List Nat
  | .null => [110, 117, 108, 108]
  | .bool true => [116, 114, 117, 101]
  | .bool false => [102, 97, 108, 115, 101]
  | .num n => numCodes n
  | .str s => 34 :: escapeStr s ++ [34]
  | .arr xs => 91 :: (dumpsElems xs ++ [93])
  | .obj ms => 123 :: (dumpsMembers ms ++ [125])

/-- Comma-space separated serialization of array elements. -/
def dumpsElems : List Json → List Nat
  | [] => []
  | x :: rest => dumps x ++ dumpsElemsTail rest

/-- Serialization of the remaining array elements, each preceded by the
comma-space separator. -/
def dumpsElemsTail : List Json → List Nat
  | [] => []
  | x :: rest => 44 :: 32 :: (dumps x ++ dumpsElemsTail rest)

/-- Comma-space separated serialization of object members. -/
def dumpsMembers : List (List Nat × Json) → List Nat
  | [] => []
  | (k, v) :: rest => memberCodes k (dumps v) ++ dumpsMembersTail rest

/-- Serialization of the remaining object members, each preceded by the
comma-space separator. -/
def dumpsMembersTail : List (List Nat × Json) → List Nat
  | [] => []
  | (k, v) :: rest => 44 :: 32 :: (memberCodes k (dumps v) ++ dumpsMembersTail rest)

end

/-! ## JSON parsing (model of `json.loads` on the serializer fragment)

A fueled recursive-descent reader.  It accepts exactly the texts the
serializer produces (it is the inverse used to state that serialization
round-trips structurally), and returns `none` on everything malformed. -/

/-- Value of a hexadecimal digit character, if it is one. -/
def hexVal (c : Nat) : Option Nat :=
  if 48 ≤ c ∧ c ≤ 57 then some (c - 48)
  else if 97 ≤ c ∧ c ≤ 102 then some (c - 87)
  else none

/-- The unescaped character of a short escape, if the escape is one. -/
def shortEscape (e : Nat) : Option Nat :=
  if e = 34 then some 34
  else if e = 92 then some 92
  else if e = 98 then some 8
  else if e = 116 then some 9
  else if e = 110 then some 10
  else if e = 102 then some 12
  else if e = 114 then some 13
  else none

/-- Read an escaped string body up to the closing quote (fueled; one fuel
unit per consumed escape group, so any fuel above the input length is
enough). -/
def readStrBody : Nat → List Nat → Option (List Nat × List Nat)
  | 0, _ => none
  | fuel + 1, input =>
    match input with
    | [] => none
    | c :: rest =>
      if c = 34 then some ([], rest)
      else if c = 92 then
        (match rest with
        | [] => none
        | e :: rest2 =>
          if e = 117 then
            (match rest2 with
            | h1 :: h2 :: h3 :: h4 :: rest3 =>
              (hexVal h1).bind (fun d1 =>
                (hexVal h2).bind (fun d2 =>
                  (hexVal h3).bind (fun d3 =>
                    (hexVal h4).bind (fun d4 =>
                      (readStrBody fuel rest3).map
                        (fun p => ((d1 * 4096 + d2 * 256 + d3 * 16 + d4) :: p.1, p.2))))))
            | _ => none)
          else
            (shortEscape e).bind
              (fun u => (readStrBody fuel rest2).map (fun p => (u :: p.1, p.2))))
      else (readStrBody fuel rest).map (fun p => (c :: p.1, p.2))

/-- Is the character a decimal digit? -/
def isDigitCode (c : Nat) : Bool := 48 ≤ c && c ≤ 57

/-- Read a maximal run of decimal digits, folding into an accumulator. -/
def readDigits : Nat → List Nat → Nat × List Nat
  | acc, c :: cs =>
      if isDigitCode c then readDigits (acc * 10 + (c - 48)) cs else (acc, c :: cs)
  | acc, [] => (acc, [])

mutual

/-- Read one JSON value (fueled). -/
def readVal : Nat → List Nat → Option (Json × List Nat)
  | 0, _ => none
  | f + 1, input =>
    match input with
    | [] => none
    | c :: rest =>
      if c = 110 then
        if rest.take 3 = [117, 108, 108] then some (.null, rest.drop 3) else none
      else if c = 116 then
        if rest.take 3 = [114, 117, 101] then some (.bool true, rest.drop 3) else none
      else if c = 102 then
        if rest.take 4 = [97, 108, 115, 101] then some (.bool false, rest.drop 4)
        else none
      else if c = 34 then
        (readStrBody (rest.length + 1) rest).map (fun p => (.str p.1, p.2))
      else if c = 91 then
        (match rest with
        | [] => none
        | h :: t =>
          if h = 93 then some (.arr [], t)
          else (readElems f (h :: t)).map (fun p => (.arr p.1, p.2)))
      else if c = 123 then
        (match rest with
        | [] => none
        | h :: t =>
          if h = 125 then some (.obj [], t)
          else (readMembers f (h :: t)).map (fun p => (.obj p.1, p.2)))
      else if c = 45 then
        (match rest with
        | [] => none
        | d :: rest2 =>
          if isDigitCode d then
            let p := readDigits (d - 48) rest2
            some (.num (-(p.1 : Int)), p.2)
          else none)
      else if isDigitCode c then
        let p := readDigits (c - 48) rest
        some (.num (p.1 : Int), p.2)
      else none

/-- Read a nonempty comma-space separated element list up to the closing
bracket (fueled). -/
def readElems : Nat → List Nat → Option (List Json × List Nat)
  | 0, _ => none
  | f + 1, input =>
    (readVal f input).bind (fun vr =>
      match vr with
      | (v, []) => none
      | (v, r :: t) =>
        if r = 93 then some ([v], t)
        else if r = 44 then
          (match t with
          | [] => none
          | s :: t2 =>
            if s = 32 then (readElems f t2).map (fun p => (v :: p.1, p.2))
            else none)
        else none)

/-- Read a nonempty comma-space separated member list up to the closing
brace (fueled). -/
def readMembers : Nat → List Nat → Option (List (List Nat × Json) × List Nat)
  | 0, _ => none
  | f + 1, input =>
    match input with
    | [] => none
    | c :: rest =>
      if c = 34 then
        (readStrBody (rest.length + 1) rest).bind (fun kr =>
          match kr with
          | (k, 58 :: 32 :: rest3) =>
            (readVal f rest3).bind (fun vr =>
              match vr with
              | (v, []) => none
              | (v, r :: t) =>
                if r = 125 then some ([(k, v)], t)
                else if r = 44 then
                  (match t with
                  | [] => none
                  | s :: t2 =>
                    if s = 32 then (readMembers f t2).map (fun p => ((k, v) :: p.1, p.2))
                    else none)
                else none)
          | _ => none)
      else none

end

/-- Model of `json.loads` on a whole text: read one value and require the
input to be exhausted. -/
def parseJson (input : List Nat) : Option Json :=
  match readVal (input.length + 1) input with
  | some (v, []) => some v
  | _ => none

/-- A serialized number must not be followed directly by another digit. -/
def notDigitStart : List Nat → Bool
  | [] => true
  | c :: _ => !isDigitCode c

/-- Separation condition for parsing a serialized value followed by a
continuation: only numbers constrain the continuation. -/
def sepOK : Json → List Nat → Bool
  | .num _, rest => notDigitStart rest
  | _, _ => true

mutual

/-- Fuel sufficient for `readVal` to read the serialization of a value. -/
def jfuel : Json → Nat
  | Json.null => 1
  | Json.bool _ => 1
  | Json.num _ => 1
  | Json.str _ => 1
  | Json.arr xs => 1 + jfuelElems xs
  | Json.obj ms => 1 + jfuelMembers ms

/-- Fuel sufficient for `readElems` on a serialized element list. -/
def jfuelElems : List Json → Nat
  | [] => 0
  | x :: xs => 1 + jfuel x + jfuelElems xs

/-- Fuel sufficient for `readMembers` on a serialized member list. -/
def jfuelMembers : List (List Nat × Json) → Nat
  | [] => 0
  | (_k, v) :: ms => 1 + jfuel v + jfuelMembers ms

end

/-! ## Text helpers -/

/-- Code points of a string literal (all text in the embedding is carried
as lists of code points, so that everything evaluates inside the kernel). -/
def strCodes (s : String) : List Nat := s.data.map Char.toNat

/-- The encrypted-variant suffix. -/
def e2eeSuffix : List Nat := strCodes "_e2ee"

/-- Model of the check `name.endswith("_e2ee")`. -/
def hasE2eeSuffix (s : List Nat) : Bool := e2eeSuffix.isSuffixOf s

/-! ## The sealed-box codec (proxy_handler_v2.encrypt_arguments /
decrypt_response; ProxyHandler.encrypt_arguments / decrypt_response of
proxy_handler.py is the same code on `self` state)

`encrypt_arguments` serializes the argument mapping with `json.dumps`,
UTF-8-encodes it (the identity on the ASCII text `dumps` produces),
seals it with `Box(agent_private_key, PublicKey(device_public_keys[0]))`
and base64-encodes the result.  Device public keys appear in the source
as base64 strings decoded into `PublicKey` values; the embedding carries
them directly as the underlying key values. -/

/-- Model of `encrypt_arguments`.  The `nonce` parameter models the random
nonce `box.encrypt` draws internally. -/
def encrypt_arguments (arguments : Json) (devicePublicKeys : List Nat)
    (agentPrivateKey nonce : Nat) : Except (List Nat) (List Nat) :=
  if devicePublicKeys.isEmpty then
    .error (strCodes "No device public keys provided for encryption")
  else
    .ok (b64encode (boxSeal (dhShared agentPrivateKey (devicePublicKeys.headD 0))
      nonce (dumps arguments)))

/-- The single observable failure of `decrypt_response`: the generic
exception message prefix of the source, with the inner cause appended. -/
def failedDecryptMsg (inner : List Nat) : List Nat :=
  strCodes "Failed to decrypt response: " ++ inner

/-- Inner message of a base64 decoding failure (binascii). -/
def b64ErrInner : List Nat := strCodes "Invalid base64-encoded string"

/-- Inner message of a NaCl authentication failure; NaCl raises the same
error for a tampered ciphertext and for a wrong key. -/
def cryptoErrInner : List Nat := strCodes "Decryption failed. Ciphertext failed verification"

/-- Inner message of a UTF-8 decoding failure. -/
def utf8ErrInner : List Nat := strCodes "UnicodeDecodeError"

/-- Model of `decrypt_response` on a sealed payload text (the plain-string
branch of the v2 function; the v1 method body is identical).  The final
`decode("utf-8")` is modelled on its ASCII fragment: the serializer
of the counterpart produces ASCII, and a payload whose plaintext is not
ASCII is treated as a decoding failure. -/
def decrypt_response (encryptedData : List Nat) (devicePublicKey agentPrivateKey : Nat) :
    Except (List Nat) (List Nat) :=
  match b64decode encryptedData with
  | none => .error (failedDecryptMsg b64ErrInner)
  | some cipherBytes =>
    match boxOpen (dhShared agentPrivateKey devicePublicKey) cipherBytes with
    | none => .error (failedDecryptMsg cryptoErrInner)
    | some plainBytes =>
      if plainBytes.all (fun b => b < 128) then .ok plainBytes
      else .error (failedDecryptMsg utf8ErrInner)

/-! ## Tool catalog (proxy_handler_v2.create_fastmcp_proxy_server /
register_backend_tools) -/

/-- A tool descriptor: the fields `register_backend_tools` reads. -/
structure ToolDescr where
  name : List Nat
  description : List Nat

/-- The sensitive tools implemented locally by the FastMCP proxy. -/
def implementedTools : List (List Nat) :=
  [strCodes "request_human_input", strCodes "notify_human"]

/-- The two locally-defined sensitive tools registered up front with
`mcp.tool()`. -/
def localTools : List ToolDescr :=
  [⟨strCodes "request_human_input",
    strCodes "Request input from human with transparent E2EE encryption."⟩,
   ⟨strCodes "notify_human",
    strCodes "Send notification to human with transparent E2EE encryption."⟩]

/-- Model of the filtering loop of `register_backend_tools`: backend tools
whose names carry the encrypted-variant suffix are skipped, as are tools
already implemented locally; the remainder get pass-through handlers.
The function is defined inside `create_fastmcp_proxy_server` but is never
invoked: `enhanced_get_tools` only sets the `_backend_tools_registered`
flag and returns the original tool list, and no other code calls it. -/
def register_backend_tools (backendTools : List ToolDescr) : List ToolDescr :=
  backendTools.filter (fun t => !hasE2eeSuffix t.name && !implementedTools.contains t.name)

/-- The tool catalog the FastMCP proxy actually exposes.  Because
`register_backend_tools` is never invoked, the only tools ever registered
on the server are the two locally-defined sensitive tools: the `list_tools`
output is `localTools`, whatever the backend advertises. -/
def fastmcpCatalog : List ToolDescr :=
  localTools

/-! ## Observable events of one proxied call

The network side of a call is modelled as a function argument (the
backend), and every interaction is recorded in an event trace so that
statements like "the gateway is invoked zero times" and "plaintext is
never forwarded" are about the trace, not about intuition. -/

/-- Arguments carried by a backend gateway invocation. -/
inductive GatewayArgs where
  | encryptedPayload (payload : List Nat)
  | jsonArgs (v : Json)

/-- Observable events of the FastMCP tools. -/
inductive ProxyEvent where
  | fetchedDeviceKeys (keys : List Nat)
  | encryptedArguments (payload : List Nat)
  | calledGateway (toolName : List Nat) (args : GatewayArgs)
  | attemptedDecrypt

/-- The argument mapping `request_human_input` builds before encrypting:
`prompt`, and `choices` only when given. -/
def requestHumanInputArgs (prompt : List Nat) (choices : Option (List (List Nat))) : Json :=
  match choices with
  | none => .obj [(strCodes "prompt", .str prompt)]
  | some cs => .obj [(strCodes "prompt", .str prompt),
      (strCodes "choices", .arr (cs.map .str))]

/-- Model of the FastMCP tool `request_human_input` (proxy_handler_v2):
fetch device keys, fail if none, seal the arguments, invoke the
encrypted-variant tool on the backend, open the sealed response.
`deviceKeys` is the device-key fetch result; `backend` is the gateway. -/
def request_human_input (prompt : List Nat) (choices : Option (List (List Nat)))
    (deviceKeys : List Nat)
    (backend : List Nat → GatewayArgs → Except (List Nat) (List Nat))
    (agentPrivateKey nonce : Nat) :
    Except (List Nat) (List Nat) × List ProxyEvent :=
  let ev0 := [ProxyEvent.fetchedDeviceKeys deviceKeys]
  if deviceKeys.isEmpty then
    (.error (strCodes "Failed to process encrypted request: No device public keys available for encryption"), ev0)
  else
    match encrypt_arguments (requestHumanInputArgs prompt choices) deviceKeys agentPrivateKey nonce with
    | .error e => (.error (strCodes "Failed to process encrypted request: " ++ e), ev0)
    | .ok payload =>
      let ev1 := ev0 ++ [ProxyEvent.encryptedArguments payload,
        ProxyEvent.calledGateway (strCodes "request_human_input_e2ee") (.encryptedPayload payload)]
      match backend (strCodes "request_human_input_e2ee") (.encryptedPayload payload) with
      | .error e => (.error (strCodes "Failed to process encrypted request: " ++ e), ev1)
      | .ok resp =>
        let ev2 := ev1 ++ [ProxyEvent.attemptedDecrypt]
        match decrypt_response resp (deviceKeys.headD 0) agentPrivateKey with
        | .ok plain => (.ok plain, ev2)
        | .error e => (.error (strCodes "Failed to process encrypted request: " ++ e), ev2)

/-- Model of the FastMCP tool `notify_human` (proxy_handler_v2): fetch
device keys, fail if none, seal the arguments, invoke the
encrypted-variant tool on the backend, and acknowledge with a fixed
string without touching the backend response. -/
def notify_human (message : List Nat) (deviceKeys : List Nat)
    (backend : List Nat → GatewayArgs → Except (List Nat) (List Nat))
    (agentPrivateKey nonce : Nat) :
    Except (List Nat) (List Nat) × List ProxyEvent :=
  let ev0 := [ProxyEvent.fetchedDeviceKeys deviceKeys]
  if deviceKeys.isEmpty then
    (.error (strCodes "Failed to send encrypted notification: No device public keys available for encryption"), ev0)
  else
    match encrypt_arguments (.obj [(strCodes "message", .str message)]) deviceKeys agentPrivateKey nonce with
    | .error e => (.error (strCodes "Failed to send encrypted notification: " ++ e), ev0)
    | .ok payload =>
      let ev1 := ev0 ++ [ProxyEvent.encryptedArguments payload,
        ProxyEvent.calledGateway (strCodes "notify_human_e2ee") (.encryptedPayload payload)]
      match backend (strCodes "notify_human_e2ee") (.encryptedPayload payload) with
      | .error e => (.error (strCodes "Failed to send encrypted notification: " ++ e), ev1)
      | .ok _ => (.ok (strCodes "Notification sent successfully"), ev1)

/-! ## Backend MCP client (proxy_handler_v2.BackendMCPClient.call_tool) -/

/-- Outcome of one transport-level tool invocation. -/
inductive TransportOutcome where
  | success (result : List Nat)
  | timedOut (message : List Nat)
  | transportFailure (message : List Nat)
  | protocolFailure (message : List Nat)

/-- The timeout passed to the FastMCP `Client` for tool calls:
900 seconds, the 15 minute budget for human responses. -/
def backendCallTimeoutSeconds : Nat := 900

/-- Model of `BackendMCPClient.call_tool`: invoke the transport with the
15-minute timeout and wrap every failure in the generic gateway error,
keeping the transport's own message. -/
def BackendMCPClient.call_tool (toolName : List Nat) (arguments : GatewayArgs)
    (transport : List Nat → GatewayArgs → Nat → TransportOutcome) :
    Except (List Nat) (List Nat) :=
  match transport toolName arguments backendCallTimeoutSeconds with
  | .success r => .ok r
  | .timedOut m => .error (strCodes "Failed to call tool " ++ toolName ++ strCodes ": " ++ m)
  | .transportFailure m => .error (strCodes "Failed to call tool " ++ toolName ++ strCodes ": " ++ m)
  | .protocolFailure m => .error (strCodes "Failed to call tool " ++ toolName ++ strCodes ": " ++ m)

/-! ## The legacy JSON-RPC proxy (proxy_handler.ProxyHandler) -/

/-- Key lookup in a JSON object (Python `dict.get` on a parsed value). -/
def jsonGet (j : Json) (key : List Nat) : Option Json :=
  match j with
  | .obj ms => (ms.find? (fun m => m.1 == key)).map (fun m => m.2)
  | _ => none

/-- Python truthiness of a JSON value. -/
def jsonTruthy : Json → Bool
  | .null => false
  | .bool b => b
  | .num n => n != 0
  | .str s => !s.isEmpty
  | .arr xs => !xs.isEmpty
  | .obj ms => !ms.isEmpty

/-- `request.get("id")`, with Python `None` carried as JSON null. -/
def reqId (req : Json) : Json := (jsonGet req (strCodes "id")).getD .null

/-- A JSON-RPC result response. -/
def rpcResult (idJ : Json) (result : Json) : Json :=
  .obj [(strCodes "jsonrpc", .str (strCodes "2.0")), (strCodes "id", idJ),
    (strCodes "result", result)]

/-- A JSON-RPC error response. -/
def rpcError (idJ : Json) (code : Int) (message : List Nat) : Json :=
  .obj [(strCodes "jsonrpc", .str (strCodes "2.0")), (strCodes "id", idJ),
    (strCodes "error", .obj [(strCodes "code", .num code),
      (strCodes "message", .str message)])]

/-- Observable events of the legacy handler. -/
inductive V1Event where
  | fetchedDeviceKeys (keys : List Nat)
  | encryptedArguments (payload : List Nat)
  | forwardedToBackend (request : Json)
  | attemptedDecrypt

/-- The timeout of the `httpx` client used by `forward_to_backend`:
900 seconds, the 15 minute budget for human responses. -/
def forwardToBackendTimeoutSeconds : Nat := 900

/-- Per-process context of the legacy handler: the device-key fetch
result, the backend transport (taking the request and the timeout),
and the loaded agent key.  The `nonce` models the randomness of
`box.encrypt`. -/
structure V1Ctx where
  deviceKeys : List Nat
  transport : Json → Nat → Except (List Nat) Json
  agentPrivateKey : Nat
  nonce : Nat

/-- Model of `ProxyHandler.forward_to_backend`: post the request verbatim
with the 15-minute timeout and return the response body unchanged; a
non-success status or transport failure raises (models the raised
exception as an error value). -/
def ProxyHandler.forward_to_backend (req : Json) (ctx : V1Ctx) : Except (List Nat) Json :=
  ctx.transport req forwardToBackendTimeoutSeconds

/-- The fixed tools/list request `get_backend_tools` forwards. -/
def toolsListRequest : Json :=
  .obj [(strCodes "jsonrpc", .str (strCodes "2.0")), (strCodes "id", .num 1),
    (strCodes "method", .str (strCodes "tools/list")), (strCodes "params", .obj [])]

/-- Model of the extraction in `get_backend_tools` (lines 210-219): use
the truthy `result` member if present else the response itself, then its
`tools` member, falling back to the response's own `tools` member, with
every failure collapsed to the empty list by the enclosing try. -/
def extractTools (resp : Json) : Json :=
  match resp with
  | .obj _ =>
    let result := match jsonGet resp (strCodes "result") with
      | some r => if jsonTruthy r then r else resp
      | none => resp
    match result, jsonGet result (strCodes "tools") with
    | .obj _, some ts => ts
    | _, _ =>
      match jsonGet resp (strCodes "tools") with
      | some ts => ts
      | none => .arr []
  | _ => .arr []

/-- `tool.get("name", "")` followed by `.endswith` requires the descriptor
to be a mapping whose `name`, if present, is a string; anything else
raises inside the comprehension. -/
def toolNameStr (t : Json) : Except (List Nat) (List Nat) :=
  match jsonGet t (strCodes "name") with
  | none => .ok []
  | some (.str s) => .ok s
  | some _ => .error (strCodes "AttributeError: endswith")

/-- Model of the filtering comprehension of `handle_tools_list`
(lines 170-174): keep the descriptors whose name does not carry the
encrypted-variant suffix. -/
def ProxyHandler.filterPlaintextTools : List Json → Except (List Nat) (List Json)
  | [] => .ok []
  | t :: ts =>
    match t with
    | .obj _ =>
      match toolNameStr t with
      | .ok nm => (ProxyHandler.filterPlaintextTools ts).map
          (fun rest => if hasE2eeSuffix nm then rest else t :: rest)
      | .error e => .error e
    | _ => .error (strCodes "AttributeError: get")

/-- Model of `ProxyHandler.handle_tools_list`: fetch the backend catalog
through `forward_to_backend`, filter out the encrypted variants, and
answer; any failure becomes the -32603 error response. -/
def ProxyHandler.handle_tools_list (req : Json) (ctx : V1Ctx) : Json × List V1Event :=
  let ev := [V1Event.forwardedToBackend toolsListRequest]
  match ProxyHandler.forward_to_backend toolsListRequest ctx with
  | .error e => (rpcError (reqId req) (-32603) (strCodes "Failed to get tools: " ++ e), ev)
  | .ok resp =>
    match extractTools resp with
    | .arr ts =>
      match ProxyHandler.filterPlaintextTools ts with
      | .ok filtered =>
          (rpcResult (reqId req) (.obj [(strCodes "tools", .arr filtered)]), ev)
      | .error e =>
          (rpcError (reqId req) (-32603) (strCodes "Failed to get tools: " ++ e), ev)
    | _ => (rpcError (reqId req) (-32603) (strCodes "Failed to get tools: TypeError"), ev)

/-- `request.get("params", {}).get("arguments", {})`: fails when `params`
is present but not a mapping. -/
def extractArguments (req : Json) : Except (List Nat) Json :=
  match (jsonGet req (strCodes "params")).getD (.obj []) with
  | .obj pms => .ok ((jsonGet (.obj pms) (strCodes "arguments")).getD (.obj []))
  | _ => .error (strCodes "AttributeError: get")

/-- Model of `ProxyHandler.process_encrypted_response`: pull the first
text block out of the response's result content, base64-decode it
(falling back to the raw text bytes as the source does), open the sealed
box addressed by the device key, and rebuild a normalized result
response; any failure becomes the -32603 decryption error response.
The source reloads the agent keypair from disk; the embedding uses the
same key the context already carries. -/
def ProxyHandler.process_encrypted_response (resp : Json) (devicePublicKey agentPrivateKey : Nat) : Json :=
  let core : Except (List Nat) (List Nat) :=
    match (jsonGet resp (strCodes "result")).getD (.obj []) with
    | .obj rms =>
      let content := (jsonGet (.obj rms) (strCodes "content")).getD (.arr [])
      let firstText : Except (List Nat) (List Nat) :=
        match content with
        | .obj cms =>
          match jsonGet (.obj cms) (strCodes "text") with
          | some (.str s) => if s.isEmpty then .error (strCodes "No encrypted content") else .ok s
          | some t => if jsonTruthy t then .error (strCodes "TypeError: b64decode")
              else .error (strCodes "No encrypted content")
          | none => .error (strCodes "No encrypted content")
        | .arr bs =>
          match (bs.findSome? (fun b => match b with
            | .obj bms => some ((jsonGet (.obj bms) (strCodes "text")).getD .null)
            | _ => none) : Option Json) with
          | some (.str s) => if s.isEmpty then .error (strCodes "No encrypted content") else .ok s
          | some t => if jsonTruthy t then .error (strCodes "TypeError: b64decode")
              else .error (strCodes "No encrypted content")
          | none => .error (strCodes "No encrypted content")
        | .str _ => .error (strCodes "No encrypted content")
        | _ => .error (strCodes "TypeError: iteration")
      match firstText with
      | .error e => .error e
      | .ok encText =>
        let ciphertext := (b64decode encText).getD encText
        match boxOpen (dhShared agentPrivateKey devicePublicKey) ciphertext with
        | none => .error cryptoErrInner
        | some plainBytes =>
          if plainBytes.all (fun b => b < 128) then .ok plainBytes
          else .error utf8ErrInner
    | _ => .error (strCodes "AttributeError: get")
  match core with
  | .ok plaintext =>
    .obj [(strCodes "jsonrpc", (jsonGet resp (strCodes "jsonrpc")).getD (.str (strCodes "2.0"))),
      (strCodes "id", (jsonGet resp (strCodes "id")).getD .null),
      (strCodes "result", .obj [(strCodes "content",
        .arr [.obj [(strCodes "type", .str (strCodes "text")),
          (strCodes "text", .str plaintext)]])])]
  | .error e =>
    .obj [(strCodes "jsonrpc", (jsonGet resp (strCodes "jsonrpc")).getD (.str (strCodes "2.0"))),
      (strCodes "id", (jsonGet resp (strCodes "id")).getD .null),
      (strCodes "error", .obj [(strCodes "code", .num (-32603)),
        (strCodes "message", .str (failedDecryptMsg e))])]

/-- The reshaping of the decrypted response at the end of
`handle_request_human_input` (lines 274-278): when the result carries a
content list whose first block has a text member, answer with that text
as the bare result. -/
def reshapeDecrypted (decrypted : Json) : Json :=
  match jsonGet decrypted (strCodes "result") with
  | some (.obj rms) =>
    match jsonGet (.obj rms) (strCodes "content") with
    | some (.arr (c0 :: _)) =>
      match c0 with
      | .obj _ =>
        match jsonGet c0 (strCodes "text") with
        | some txt =>
          .obj [(strCodes "jsonrpc",
              (jsonGet decrypted (strCodes "jsonrpc")).getD (.str (strCodes "2.0"))),
            (strCodes "id", (jsonGet decrypted (strCodes "id")).getD .null),
            (strCodes "result", txt)]
        | none => decrypted
      | _ => decrypted
    | _ => decrypted
  | _ => decrypted

/-- Model of `ProxyHandler.handle_request_human_input`: extract the
arguments, fetch the device keys, fail with the -32600 no-keys error on
an empty list (before any cryptography or backend call), else seal the
arguments, forward the encrypted-variant request, and decrypt responses
that carry a result. -/
def ProxyHandler.handle_request_human_input (req : Json) (ctx : V1Ctx) : Json × List V1Event :=
  match extractArguments req with
  | .error e =>
      (rpcError (reqId req) (-32603) (strCodes "Failed to process encrypted request: " ++ e), [])
  | .ok args =>
    let ev0 := [V1Event.fetchedDeviceKeys ctx.deviceKeys]
    if ctx.deviceKeys.isEmpty then
      (rpcError (reqId req) (-32600) (strCodes "No device public keys available"), ev0)
    else
      match encrypt_arguments args ctx.deviceKeys ctx.agentPrivateKey ctx.nonce with
      | .error e =>
          (rpcError (reqId req) (-32603) (strCodes "Failed to process encrypted request: " ++ e), ev0)
      | .ok payload =>
        let e2eeReq : Json := .obj [(strCodes "jsonrpc", .str (strCodes "2.0")),
          (strCodes "id", reqId req),
          (strCodes "method", .str (strCodes "tools/call")),
          (strCodes "params", .obj [(strCodes "name", .str (strCodes "request_human_input_e2ee")),
            (strCodes "arguments", .obj [(strCodes "encrypted_payload", .str payload)])])]
        let ev1 := ev0 ++ [V1Event.encryptedArguments payload,
          V1Event.forwardedToBackend e2eeReq]
        match ProxyHandler.forward_to_backend e2eeReq ctx with
        | .error e =>
            (rpcError (reqId req) (-32603) (strCodes "Failed to process encrypted request: " ++ e), ev1)
        | .ok resp =>
          match jsonGet resp (strCodes "result") with
          | some _ =>
            (reshapeDecrypted (ProxyHandler.process_encrypted_response resp
                (ctx.deviceKeys.headD 0) ctx.agentPrivateKey),
             ev1 ++ [V1Event.attemptedDecrypt])
          | none => (resp, ev1)

/-- Model of `ProxyHandler.handle_mcp_request`: parse the line, answer
the -32700 parse error on invalid JSON and the -32600 error on a mapping
without a method, dispatch tools/list and the sensitive
request_human_input, and forward everything else verbatim.  A `.error`
value models an exception escaping the handler (to be caught by the
loop); in particular a parsed non-mapping request raises AttributeError
on `request.get` while the error response is being built, exactly as the
source does. -/
def ProxyHandler.handle_mcp_request (line : List Nat) (ctx : V1Ctx) :
    Except (List Nat) Json × List V1Event :=
  match parseJson line with
  | none => (.ok (rpcError .null (-32700) (strCodes "Parse error - Invalid JSON")), [])
  | some req =>
    match req with
    | .obj _ =>
      match jsonGet req (strCodes "method") with
      | none => (.ok (rpcError (reqId req) (-32600) (strCodes "Invalid Request - Missing method")), [])
      | some methodJ =>
        match methodJ with
        | .str m =>
          if m = strCodes "tools/list" then
            let r := ProxyHandler.handle_tools_list req ctx
            (.ok r.1, r.2)
          else if m = strCodes "tools/call" then
            match (jsonGet req (strCodes "params")).getD (.obj []) with
            | .obj pms =>
              match jsonGet (.obj pms) (strCodes "name") with
              | some (.str n) =>
                if n = strCodes "request_human_input" then
                  let r := ProxyHandler.handle_request_human_input req ctx
                  (.ok r.1, r.2)
                else
                  match ProxyHandler.forward_to_backend req ctx with
                  | .ok resp => (.ok resp, [V1Event.forwardedToBackend req])
                  | .error e => (.error e, [V1Event.forwardedToBackend req])
              | _ =>
                  match ProxyHandler.forward_to_backend req ctx with
                  | .ok resp => (.ok resp, [V1Event.forwardedToBackend req])
                  | .error e => (.error e, [V1Event.forwardedToBackend req])
            | _ => (.error (strCodes "AttributeError: get"), [])
          else
            match ProxyHandler.forward_to_backend req ctx with
            | .ok resp => (.ok resp, [V1Event.forwardedToBackend req])
            | .error e => (.error e, [V1Event.forwardedToBackend req])
        | _ =>
            match ProxyHandler.forward_to_backend req ctx with
            | .ok resp => (.ok resp, [V1Event.forwardedToBackend req])
            | .error e => (.error e, [V1Event.forwardedToBackend req])
    | _ => (.error (strCodes "AttributeError: get"), [])

/-- Python `str.strip` whitespace. -/
def isWhitespaceCode (c : Nat) : Bool :=
  c = 32 || c = 9 || c = 10 || c = 11 || c = 12 || c = 13

/-- Model of `line.strip()`. -/
def stripLine (l : List Nat) : List Nat :=
  ((l.dropWhile isWhitespaceCode).reverse.dropWhile isWhitespaceCode).reverse

/-- The -32603 response of the loop's inner exception handler. -/
def internalErrorResponse (e : List Nat) : Json :=
  rpcError .null (-32603) (strCodes "Internal error: " ++ e)

/-- Model of `ProxyHandler.start_proxy_loop`: one response per non-blank
input line; an exception escaping the request handler is converted to the
internal-error response and the loop continues; the loop ends exactly
when the input lines end (EOF on the local channel).  Each element of
`lines` is one line read before end-of-stream, without its trailing
newline (the raw line of a non-EOF read is never empty, so end-of-stream
is exactly the end of the list). -/
def ProxyHandler.start_proxy_loop : List (List Nat) → V1Ctx → List Json
  | [], _ => []
  | line :: rest, ctx =>
    let stripped := stripLine line
    if stripped.isEmpty then ProxyHandler.start_proxy_loop rest ctx
    else
      match (ProxyHandler.handle_mcp_request stripped ctx).1 with
      | .ok resp => resp :: ProxyHandler.start_proxy_loop rest ctx
      | .error e => internalErrorResponse e :: ProxyHandler.start_proxy_loop rest ctx

/-! ## Keypair store (crypto.py)

State of the paths `crypto.py` touches: the key directory
(~/.config/hitl-shin-relay) and the key file (agent.key) inside it, each
with its permission mode, plus the process umask.  The JSON layer of the
key file stores exactly the two keys `load_agent_keypair` reads back, so
the file content is carried as the pair itself.  The best-effort backend
registration in `ensure_agent_keypair` is a network call with no
filesystem effect and its failures are swallowed, so it does not appear
in the state. -/

structure KeyStoreState where
  dirMode : Option Nat
  keyFile : Option ((List Nat × List Nat) × Nat)
  umask : Nat

/-- The mode `Path.mkdir` gives a fresh directory: the default 0o777
masked by the process umask (no explicit mode is passed in
`get_agent_keys_path`). -/
def defaultDirMode (umask : Nat) : Nat := 0o777 ^^^ (umask &&& 0o777)

/-- Model of `get_agent_keys_path`: create the key directory if absent
(with the default mkdir mode) and leave an existing one untouched. -/
def get_agent_keys_path (s : KeyStoreState) : KeyStoreState :=
  match s.dirMode with
  | some _ => s
  | none => { s with dirMode := some (defaultDirMode s.umask) }

/-- Model of `save_agent_keypair`: write the keypair file and chmod it to
0o600. -/
def save_agent_keypair (publicKey privateKey : List Nat) (s : KeyStoreState) : KeyStoreState :=
  { s with keyFile := some ((publicKey, privateKey), 0o600) }

/-- Model of `load_agent_keypair`: the stored pair, or the
file-not-found failure. -/
def load_agent_keypair (s : KeyStoreState) : Except (List Nat) (List Nat × List Nat) :=
  match s.keyFile with
  | none => .error (strCodes "Agent key file not found")
  | some (kp, _) => .ok kp

/-- Model of `ensure_agent_keypair`: load the existing pair if the file
exists, otherwise generate (the `fresh` parameter models the generated
randomness), save, best-effort register, and return the new pair. -/
def ensure_agent_keypair (fresh : List Nat × List Nat) (s : KeyStoreState) :
    (List Nat × List Nat) × KeyStoreState :=
  let s1 := get_agent_keys_path s
  match load_agent_keypair s1 with
  | .ok kp => (kp, s1)
  | .error _ => (fresh, save_agent_keypair fresh.1 fresh.2 s1)

/-! ## Byte serialization lemmas -/

theorem length_natToBytesLE (len k : Nat) : (natToBytesLE len k).length = len := by
  induction len generalizing k with
  | zero => rfl
  | succ n ih => simp [natToBytesLE, ih]

theorem bytesToNatLE_natToBytesLE (len k : Nat) (h : k < 256 ^ len) :
    bytesToNatLE (natToBytesLE len k) = k := by
  induction len generalizing k with
  | zero => simp at h; simp [natToBytesLE, bytesToNatLE, h]
  | succ n ih =>
      have hdiv : k / 256 < 256 ^ n := by
        rw [Nat.div_lt_iff_lt_mul (by norm_num)]
        calc k < 256 ^ (n + 1) := h
        _ = 256 ^ n * 256 := by rw [Nat.pow_succ]
      simp [natToBytesLE, bytesToNatLE, ih _ hdiv, Nat.mod_add_div]

theorem natToBytesLE_inj (len k1 k2 : Nat) (h1 : k1 < 256 ^ len) (h2 : k2 < 256 ^ len)
    (h : natToBytesLE len k1 = natToBytesLE len k2) : k1 = k2 := by
  have := congrArg bytesToNatLE h
  rwa [bytesToNatLE_natToBytesLE _ _ h1, bytesToNatLE_natToBytesLE _ _ h2] at this

theorem allBytes_natToBytesLE (len k : Nat) : allBytes (natToBytesLE len k) = true := by
  induction len generalizing k with
  | zero => rfl
  | succ n ih =>
      simp only [natToBytesLE, allBytes, List.all_cons, Bool.and_eq_true, decide_eq_true_eq]
      exact ⟨Nat.mod_lt _ (by norm_num), ih (k / 256)⟩

/-! ## Base64 lemmas -/

theorem b64chunkA (a b : Nat) (hb : b < 256) :
    a / 4 * 4 + (a % 4 * 16 + b / 16) / 16 = a := by
  have h1 : a % 4 * 16 + b / 16 = 16 * (a % 4) + b / 16 := by ring
  rw [h1, Nat.mul_add_div (by norm_num), Nat.div_div_eq_div_mul]
  have h2 : b / 256 = 0 := Nat.div_eq_of_lt hb
  omega

theorem b64chunkB (a b c : Nat) (hb : b < 256) (hc : c < 256) :
    (a % 4 * 16 + b / 16) % 16 * 16 + (b % 16 * 4 + c / 64) / 4 = b := by
  have h1 : (a % 4 * 16 + b / 16) % 16 = b / 16 % 16 := by
    rw [Nat.mul_comm (a % 4) 16]
    exact Nat.mul_add_mod 16 (a % 4) (b / 16)
  have h2 : b % 16 * 4 + c / 64 = 4 * (b % 16) + c / 64 := by ring
  rw [h1, h2, Nat.mul_add_div (by norm_num), Nat.div_div_eq_div_mul]
  have h3 : c / 256 = 0 := Nat.div_eq_of_lt hc
  have h4 : b / 16 % 16 = b / 16 := Nat.mod_eq_of_lt (by omega)
  omega

theorem b64chunkC (b c : Nat) (hc : c < 256) :
    (b % 16 * 4 + c / 64) % 4 * 64 + c % 64 = c := by
  have h1 : (b % 16 * 4 + c / 64) % 4 = c / 64 % 4 := by
    rw [Nat.mul_comm (b % 16) 4]
    exact Nat.mul_add_mod 4 (b % 16) (c / 64)
  have h2 : c / 64 % 4 = c / 64 := Nat.mod_eq_of_lt (by omega)
  rw [h1, h2]
  omega

theorem b64decode_b64encode : ∀ bs : List Nat, allBytes bs = true →
    b64decode (b64encode bs) = some bs
  | [], _ => rfl
  | [a], h => by
      simp only [allBytes, List.all_cons, List.all_nil, Bool.and_true,
        decide_eq_true_eq] at h
      have h1 : a / 4 < 64 := by omega
      have h2 : a % 4 * 16 < 64 := by omega
      simp [b64encode, b64decode, h1, h2]
      omega
  | [a, b], h => by
      simp only [allBytes, List.all_cons, List.all_nil, Bool.and_true,
        Bool.and_eq_true, decide_eq_true_eq] at h
      obtain ⟨ha, hb⟩ := h
      have h1 : a / 4 < 64 := by omega
      have h2 : a % 4 * 16 + b / 16 < 64 := by omega
      have h3 : b % 16 * 4 < 64 := by omega
      have key1 : a / 4 * 4 + (a % 4 * 16 + b / 16) / 16 = a := b64chunkA a b hb
      have key2 : (a % 4 * 16 + b / 16) % 16 * 16 + b % 16 * 4 / 4 = b := by
        have := b64chunkB a b 0 hb (by norm_num)
        simpa using this
      have key2b : (a % 4 * 16 + b / 16) % 16 * 16 + b % 16 = b := by
        have h5 : b % 16 * 4 / 4 = b % 16 := by omega
        omega
      have hne : ¬(b % 16 * 4 = 64) := by omega
      simp [b64encode, b64decode, h1, h2, h3, key1, key2, key2b, hne]
  | a :: b :: c :: d :: rest, h => by
      simp only [allBytes, List.all_cons, Bool.and_eq_true, decide_eq_true_eq] at h
      obtain ⟨ha, hb, hc, hd, hrest⟩ := h
      have ih := b64decode_b64encode (d :: rest) (by
        simp only [allBytes, List.all_cons, Bool.and_eq_true, decide_eq_true_eq]
        exact ⟨hd, hrest⟩)
      have h1 : a / 4 < 64 := by omega
      have h2 : a % 4 * 16 + b / 16 < 64 := by omega
      have h3 : b % 16 * 4 + c / 64 < 64 := by omega
      have h4 : c % 64 < 64 := by omega
      have hne1 : ¬(b % 16 * 4 + c / 64 = 64) := by omega
      have hne2 : ¬(c % 64 = 64) := by omega
      have key1 := b64chunkA a b hb
      have key2 := b64chunkB a b c hb hc
      have key3 := b64chunkC b c hc
      simp only [b64encode] at ih ⊢
      simp [b64decode, h1, h2, h3, h4, hne1, hne2, key1, key2, key3, ih]
  | [a, b, c], h => by
      simp only [allBytes, List.all_cons, List.all_nil, Bool.and_true,
        Bool.and_eq_true, decide_eq_true_eq] at h
      obtain ⟨ha, hb, hc⟩ := h
      have h1 : a / 4 < 64 := by omega
      have h2 : a % 4 * 16 + b / 16 < 64 := by omega
      have h3 : b % 16 * 4 + c / 64 < 64 := by omega
      have h4 : c % 64 < 64 := by omega
      have hne1 : ¬(b % 16 * 4 + c / 64 = 64) := by omega
      have hne2 : ¬(c % 64 = 64) := by omega
      have key1 := b64chunkA a b hb
      have key2 := b64chunkB a b c hb hc
      have key3 := b64chunkC b c hc
      simp [b64encode, b64decode, h1, h2, h3, h4, hne1, hne2, key1, key2, key3]

theorem allBytes_append (xs ys : List Nat) :
    allBytes (xs ++ ys) = (allBytes xs && allBytes ys) := by
  simp [allBytes, List.all_append]

/-! ## Keystream and box lemmas -/

theorem keystreamByte_lt (key nonce i : Nat) : keystreamByte key nonce i < 256 :=
  Nat.mod_lt _ (by norm_num)

theorem length_xorStreamFrom (key nonce : Nat) :
    ∀ (i : Nat) (m : List Nat), (xorStreamFrom key nonce i m).length = m.length := by
  intro i m
  induction m generalizing i with
  | nil => rfl
  | cons b bs ih => simp [xorStreamFrom, ih]

theorem length_xorStream (key nonce : Nat) (m : List Nat) :
    (xorStream key nonce m).length = m.length := length_xorStreamFrom key nonce 0 m

theorem xorStreamFrom_involutive (key nonce : Nat) :
    ∀ (i : Nat) (m : List Nat),
      xorStreamFrom key nonce i (xorStreamFrom key nonce i m) = m := by
  intro i m
  induction m generalizing i with
  | nil => rfl
  | cons b bs ih =>
      simp only [xorStreamFrom, List.cons.injEq]
      exact ⟨by rw [Nat.xor_assoc, Nat.xor_self, Nat.xor_zero], ih (i + 1)⟩

theorem xorStream_involutive (key nonce : Nat) (m : List Nat) :
    xorStream key nonce (xorStream key nonce m) = m :=
  xorStreamFrom_involutive key nonce 0 m

theorem allBytes_xorStreamFrom (key nonce : Nat) :
    ∀ (i : Nat) (m : List Nat), allBytes m = true →
      allBytes (xorStreamFrom key nonce i m) = true := by
  intro i m
  induction m generalizing i with
  | nil => simp [xorStreamFrom]
  | cons b bs ih =>
      simp only [allBytes, List.all_cons, Bool.and_eq_true, decide_eq_true_eq,
        xorStreamFrom]
      intro ⟨hb, hbs⟩
      refine ⟨?_, ih (i + 1) hbs⟩
      have h1 : b < 2 ^ 8 := hb
      have h2 : keystreamByte key nonce i < 2 ^ 8 := keystreamByte_lt key nonce i
      exact Nat.xor_lt_two_pow h1 h2

theorem allBytes_xorStream (key nonce : Nat) (m : List Nat) (h : allBytes m = true) :
    allBytes (xorStream key nonce m) = true := allBytes_xorStreamFrom key nonce 0 m h

/-! ## Diffie-Hellman lemmas -/

theorem dhShared_comm (a b : Nat) : dhShared a (pubkey b) = dhShared b (pubkey a) := by
  simp only [dhShared, pubkey]
  rw [← Nat.pow_mod, ← Nat.pow_mod, ← Nat.pow_mul, ← Nat.pow_mul, Nat.mul_comm]

theorem dhShared_lt (sk pk : Nat) : dhShared sk pk < 2 ^ 256 := by
  have h1 : dhShared sk pk < dhP := Nat.mod_lt _ (by norm_num [dhP])
  have h2 : dhP < 2 ^ 256 := by norm_num [dhP]
  omega

/-! ## Box correctness -/

theorem length_boxSeal (shared nonce : Nat) (m : List Nat) :
    (boxSeal shared nonce m).length = 80 + 2 * m.length := by
  simp [boxSeal, macBytes, length_natToBytesLE, length_xorStream]
  omega

theorem length_macBytes (shared nonce : Nat) (body : List Nat) :
    (macBytes shared nonce body).length = 56 + body.length := by
  simp [macBytes, length_natToBytesLE]
  omega

theorem take24_boxSeal (shared nonce : Nat) (m : List Nat) :
    (boxSeal shared nonce m).take 24 = natToBytesLE 24 nonce := by
  have hn24 := length_natToBytesLE 24 nonce
  simp only [boxSeal, List.append_assoc]
  rw [List.take_append_of_le_length (by simp [hn24])]
  simp [hn24]

theorem drop24_boxSeal (shared nonce : Nat) (m : List Nat) :
    (boxSeal shared nonce m).drop 24
      = macBytes shared nonce (xorStream shared nonce m) ++ xorStream shared nonce m := by
  have hn24 := length_natToBytesLE 24 nonce
  simp only [boxSeal, List.append_assoc]
  rw [List.drop_append_of_le_length (by simp [hn24])]
  simp [hn24]

/-- Parsing a sealed box built with inner key `shared0` and checking it
with key `shared`: the guards pass and everything reduces to the
authenticator comparison. -/
theorem boxOpen_boxSeal_general (shared shared0 nonce : Nat) (m : List Nat)
    (hn : nonce < 2 ^ 192) :
    boxOpen shared (boxSeal shared0 nonce m) =
      if macBytes shared0 nonce (xorStream shared0 nonce m)
         = macBytes shared nonce (xorStream shared0 nonce m)
      then some (xorStream shared nonce (xorStream shared0 nonce m)) else none := by
  have hlen := length_boxSeal shared0 nonce m
  have hxlen := length_xorStream shared0 nonce m
  have hmac : (macBytes shared0 nonce (xorStream shared0 nonce m)).length
      = 56 + m.length := by rw [length_macBytes, hxlen]
  simp only [boxOpen, hlen]
  rw [if_neg (by omega)]
  have hbl : (80 + 2 * m.length - 80) / 2 = m.length := by omega
  simp only [hbl]
  rw [take24_boxSeal, drop24_boxSeal, bytesToNatLE_natToBytesLE 24 nonce hn,
    List.take_append_of_le_length (by omega), List.drop_append_of_le_length (by omega),
    List.take_of_length_le (le_of_eq hmac), List.drop_eq_nil_of_le (le_of_eq hmac)]
  simp

theorem boxOpen_boxSeal (shared nonce : Nat) (m : List Nat)
    (hn : nonce < 2 ^ 192) :
    boxOpen shared (boxSeal shared nonce m) = some m := by
  rw [boxOpen_boxSeal_general shared shared nonce m hn, if_pos rfl, xorStream_involutive]

/-- Different shared keys give different authenticators, so opening with
a wrong key fails closed. -/
theorem boxOpen_wrong_shared (shared1 shared2 nonce : Nat) (m : List Nat)
    (hn : nonce < 2 ^ 192) (h1 : shared1 < 2 ^ 256) (h2 : shared2 < 2 ^ 256)
    (hne : shared2 ≠ shared1) :
    boxOpen shared2 (boxSeal shared1 nonce m) = none := by
  rw [boxOpen_boxSeal_general shared2 shared1 nonce m hn]
  rw [if_neg]
  intro he
  have h32 := length_natToBytesLE 32 shared1
  have h32b := length_natToBytesLE 32 shared2
  have htk := congrArg (fun l => List.take 32 l) he
  simp only [macBytes, List.append_assoc] at htk
  rw [List.take_append_of_le_length (by omega), List.take_of_length_le (by omega),
    List.take_append_of_le_length (by omega), List.take_of_length_le (by omega)] at htk
  exact hne (natToBytesLE_inj 32 shared1 shared2 (by simpa using h1) (by simpa using h2) htk).symm

/-! ## List surgery helpers for the tamper lemma -/

theorem set_ne_of_getElem?_ne (l : List Nat) (i b : Nat) (hi : i < l.length)
    (hb : l[i]? ≠ some b) : l.set i b ≠ l := by
  intro he
  have h2 := congrArg (fun x => x[i]?) he
  simp only at h2
  rw [List.getElem?_set, if_pos rfl, if_pos hi] at h2
  exact hb h2.symm

/-- Fail-closed on tamper: replacing any single byte in the region after
the nonce (the MAC and ciphertext bytes of the NaCl layout) by a
different value makes the authenticator check fail. -/
theorem boxOpen_set_tamper (shared nonce : Nat) (m : List Nat) (i b : Nat)
    (hn : nonce < 2 ^ 192) (hi24 : 24 ≤ i)
    (hilen : i < (boxSeal shared nonce m).length)
    (hb : (boxSeal shared nonce m)[i]? ≠ some b) :
    boxOpen shared ((boxSeal shared nonce m).set i b) = none := by
  have hlen := length_boxSeal shared nonce m
  have hxlen := length_xorStream shared nonce m
  have hmacl : (macBytes shared nonce (xorStream shared nonce m)).length
      = 56 + m.length := by rw [length_macBytes, hxlen]
  have hn24l := length_natToBytesLE 24 nonce
  have hlen' : ((boxSeal shared nonce m).set i b).length = 80 + 2 * m.length := by
    rw [List.length_set, hlen]
  simp only [boxOpen, hlen']
  rw [if_neg (by omega)]
  have hbl : (80 + 2 * m.length - 80) / 2 = m.length := by omega
  simp only [hbl]
  have htk : ((boxSeal shared nonce m).set i b).take 24 = natToBytesLE 24 nonce := by
    rw [List.set_take, take24_boxSeal, List.set_eq_of_length_le (by omega)]
  have hdr : ((boxSeal shared nonce m).set i b).drop 24
      = (macBytes shared nonce (xorStream shared nonce m)
          ++ xorStream shared nonce m).set (i - 24) b := by
    rw [List.drop_set, if_neg (by omega), drop24_boxSeal]
  rw [htk, hdr, bytesToNatLE_natToBytesLE 24 nonce hn]
  set mac := macBytes shared nonce (xorStream shared nonce m) with hmacdef
  set body := xorStream shared nonce m with hbodydef
  set j := i - 24 with hjdef
  have hbD : (mac ++ body)[j]? ≠ some b := by
    have hcd := drop24_boxSeal shared nonce m
    have heq : (mac ++ body)[j]? = (boxSeal shared nonce m)[i]? := by
      rw [← hcd, List.getElem?_drop]
      congr 1
      omega
    rw [heq]
    exact hb
  rw [List.set_append]
  rw [if_neg]
  by_cases hcase : j < mac.length
  · rw [if_pos hcase]
    have e3 : (mac.set j b ++ body).take (56 + m.length) = mac.set j b := by
      rw [List.take_append_of_le_length (by rw [List.length_set]; omega),
        List.take_of_length_le (by rw [List.length_set]; omega)]
    have e4 : (mac.set j b ++ body).drop (56 + m.length) = body := by
      rw [List.drop_append_of_le_length (by rw [List.length_set]; omega),
        List.drop_eq_nil_of_le (by rw [List.length_set]; omega), List.nil_append]
    rw [e3, e4]
    have hmb : macBytes shared nonce body = mac := hmacdef.symm
    rw [hmb]
    apply set_ne_of_getElem?_ne
    · omega
    · rw [← List.getElem?_append_left hcase]
      exact hbD
  · rw [if_neg hcase]
    have e3 : (mac ++ body.set (j - mac.length) b).take (56 + m.length) = mac := by
      rw [List.take_append_of_le_length (by omega), List.take_of_length_le (by omega)]
    have e4 : (mac ++ body.set (j - mac.length) b).drop (56 + m.length)
        = body.set (j - mac.length) b := by
      rw [List.drop_append_of_le_length (by omega),
        List.drop_eq_nil_of_le (by omega), List.nil_append]
    rw [e3, e4]
    intro he
    have hmacshape : macBytes shared nonce (body.set (j - mac.length) b)
        = (natToBytesLE 32 shared ++ natToBytesLE 24 nonce)
            ++ body.set (j - mac.length) b := by
      rw [macBytes, List.append_assoc]
    have hmacshape2 : mac = (natToBytesLE 32 shared ++ natToBytesLE 24 nonce) ++ body := by
      rw [hmacdef, macBytes, List.append_assoc]
    rw [hmacshape, hmacshape2] at he
    have hcancel := List.append_cancel_left he
    have hjb : j < (mac ++ body).length := by
      rw [List.length_append]
      omega
    refine set_ne_of_getElem?_ne body (j - mac.length) b (by omega) ?_ hcancel.symm
    rw [← List.getElem?_append_right (by omega)]
    exact hbD

/-! ## Decimal digit printing and reading -/

theorem natDigitsAux_all_digits (fuel : Nat) : ∀ n, n < fuel →
    natDigitsAux fuel n ≠ [] ∧ ∀ x ∈ natDigitsAux fuel n, 48 ≤ x ∧ x ≤ 57 := by
  induction fuel with
  | zero => intro n h; omega
  | succ f ih =>
      intro n h
      by_cases hn : n < 10
      · simp [natDigitsAux, hn]
        omega
      · have hdiv : n / 10 < f := by
          have := Nat.div_lt_self (show 0 < n by omega) (show 1 < 10 by norm_num)
          omega
        obtain ⟨hne, hall⟩ := ih (n / 10) hdiv
        simp only [natDigitsAux, if_neg hn]
        constructor
        · simp [hne]
        · intro x hx
          rw [List.mem_append] at hx
          rcases hx with hx | hx
          · exact hall x hx
          · simp at hx
            omega

theorem natDigits_head (n : Nat) : ∃ d t, natDigits n = d :: t ∧ 48 ≤ d ∧ d ≤ 57 := by
  obtain ⟨hne, hall⟩ := natDigitsAux_all_digits (n + 1) n (by omega)
  rw [natDigits]
  cases hd : natDigitsAux (n + 1) n with
  | nil => exact absurd hd hne
  | cons d t =>
      have := hall d (by rw [hd]; exact List.mem_cons_self d t)
      exact ⟨d, t, rfl, this.1, this.2⟩

theorem readDigits_natDigitsAux (fuel : Nat) : ∀ n acc rest, n < fuel →
    readDigits acc (natDigitsAux fuel n ++ rest)
      = readDigits (acc * 10 ^ (natDigitsAux fuel n).length + n) rest := by
  induction fuel with
  | zero => intro n _ _ h; omega
  | succ f ih =>
      intro n acc rest h
      by_cases hn : n < 10
      · simp only [natDigitsAux, if_pos hn, List.cons_append, List.nil_append,
          List.length_cons, List.length_nil]
        rw [readDigits]
        rw [if_pos (by simp [isDigitCode]; omega)]
        congr 1
        rw [pow_one]
        omega
      · have hdiv : n / 10 < f := by
          have := Nat.div_lt_self (show 0 < n by omega) (show 1 < 10 by norm_num)
          omega
        simp only [natDigitsAux, if_neg hn, List.append_assoc, List.cons_append,
          List.nil_append]
        rw [ih (n / 10) acc ((48 + n % 10) :: rest) hdiv]
        rw [readDigits]
        rw [if_pos (by simp [isDigitCode]; omega)]
        rw [List.length_append, List.length_cons, List.length_nil]
        congr 1
        have h48 : 48 + n % 10 - 48 = n % 10 := by omega
        rw [h48, pow_succ]
        have hsplit : (acc * 10 ^ (natDigitsAux f (n / 10)).length + n / 10) * 10 + n % 10
            = acc * (10 ^ (natDigitsAux f (n / 10)).length * 10) + (n / 10 * 10 + n % 10) := by
          ring
        have hmod : n / 10 * 10 + n % 10 = n := by omega
        rw [hsplit, hmod]

theorem readDigits_stop (acc : Nat) (rest : List Nat) (h : notDigitStart rest = true) :
    readDigits acc rest = (acc, rest) := by
  cases rest with
  | nil => rfl
  | cons c cs =>
      simp only [notDigitStart, Bool.not_eq_true'] at h
      rw [readDigits, if_neg (by simp [h])]

theorem readDigits_natDigits (n : Nat) (rest : List Nat) (h : notDigitStart rest = true) :
    readDigits 0 (natDigits n ++ rest) = (n, rest) := by
  rw [natDigits, readDigits_natDigitsAux (n + 1) n 0 rest (by omega),
    readDigits_stop _ _ h]
  simp

/-! ## String escaping round-trip -/

theorem hexVal_hexDigit (d : Nat) (h : d < 16) : hexVal (hexDigit d) = some d := by
  simp only [hexVal, hexDigit]
  split_ifs <;> first | (congr 1; omega) | omega

theorem readStrBody_escape : ∀ (s : List Nat), s.all (fun c => c < 65536) = true →
    ∀ fuel rest, s.length < fuel →
      readStrBody fuel (escapeStr s ++ (34 :: rest)) = some (s, rest)
  | [], _, fuel, rest, hf => by
      cases fuel with
      | zero => omega
      | succ f => simp [escapeStr, readStrBody]
  | c :: cs, h, fuel, rest, hf => by
      simp only [List.all_cons, Bool.and_eq_true, decide_eq_true_eq] at h
      obtain ⟨hc, hcs⟩ := h
      cases fuel with
      | zero => omega
      | succ f =>
      have ih := readStrBody_escape cs (by simp [hcs]) f rest
        (by simp at hf; omega)
      by_cases h34 : c = 34
      · subst h34
        simp [escapeStr, escChar, readStrBody, shortEscape, ih]
      · by_cases h92 : c = 92
        · subst h92
          simp [escapeStr, escChar, readStrBody, shortEscape, ih]
        · by_cases h8 : c = 8
          · subst h8
            simp [escapeStr, escChar, readStrBody, shortEscape, ih]
          · by_cases h9 : c = 9
            · subst h9
              simp [escapeStr, escChar, readStrBody, shortEscape, ih]
            · by_cases h10 : c = 10
              · subst h10
                simp [escapeStr, escChar, readStrBody, shortEscape, ih]
              · by_cases h12 : c = 12
                · subst h12
                  simp [escapeStr, escChar, readStrBody, shortEscape, ih]
                · by_cases h13 : c = 13
                  · subst h13
                    simp [escapeStr, escChar, readStrBody, shortEscape, ih]
                  · by_cases hlit : 32 ≤ c ∧ c ≤ 126
                    · simp only [escapeStr, escChar, if_neg h34, if_neg h92, if_neg h8,
                        if_neg h9, if_neg h10, if_neg h12, if_neg h13, if_pos hlit,
                        List.cons_append, List.nil_append]
                      simp only [readStrBody]
                      rw [if_neg h34, if_neg h92, ih]
                      rfl
                    · simp only [escapeStr, escChar, if_neg h34, if_neg h92, if_neg h8,
                        if_neg h9, if_neg h10, if_neg h12, if_neg h13, if_neg hlit,
                        hex4, List.cons_append, List.append_assoc, List.nil_append]
                      simp [readStrBody]
                      rw [hexVal_hexDigit _ (by omega), hexVal_hexDigit _ (by omega),
                        hexVal_hexDigit _ (by omega), hexVal_hexDigit _ (by omega)]
                      simp [ih]
                      omega

/-! ## Serializer shape lemmas -/

theorem escChar_ne_nil (c : Nat) : escChar c ≠ [] := by
  simp only [escChar]
  split_ifs <;> simp

theorem escapeStr_length_ge (s : List Nat) : s.length ≤ (escapeStr s).length := by
  induction s with
  | nil => simp [escapeStr]
  | cons c cs ih =>
      simp only [escapeStr, List.length_cons, List.length_append]
      have hne := escChar_ne_nil c
      have hpos : 1 ≤ (escChar c).length := by
        cases h : escChar c with
        | nil => exact absurd h hne
        | cons a t => simp
      omega

theorem dumps_head (v : Json) : ∃ c t, dumps v = c :: t ∧
    (c = 110 ∨ c = 116 ∨ c = 102 ∨ c = 34 ∨ c = 91 ∨ c = 123 ∨ c = 45 ∨
      (48 ≤ c ∧ c ≤ 57)) := by
  cases v with
  | null => exact ⟨110, [117, 108, 108], rfl, by omega⟩
  | bool b =>
      cases b with
      | false => exact ⟨102, [97, 108, 115, 101], rfl, by omega⟩
      | true => exact ⟨116, [114, 117, 101], rfl, by omega⟩
  | num n =>
      by_cases hn : n < 0
      · refine ⟨45, natDigits n.natAbs, ?_, by omega⟩
        simp [dumps, numCodes, hn]
      · obtain ⟨d, t, hd, h1, h2⟩ := natDigits_head n.toNat
        refine ⟨d, t, ?_, by omega⟩
        simp [dumps, numCodes, hn, hd]
  | str s => exact ⟨34, escapeStr s ++ [34], by simp [dumps], by omega⟩
  | arr xs => exact ⟨91, dumpsElems xs ++ [93], rfl, by omega⟩
  | obj ms => exact ⟨123, dumpsMembers ms ++ [125], rfl, by omega⟩

theorem notDigitStart_elemsTail (xs : List Json) (rest : List Nat) :
    notDigitStart (dumpsElemsTail xs ++ 93 :: rest) = true := by
  cases xs <;> simp [dumpsElemsTail, notDigitStart, isDigitCode]

theorem notDigitStart_membersTail (ms : List (List Nat × Json)) (rest : List Nat) :
    notDigitStart (dumpsMembersTail ms ++ 125 :: rest) = true := by
  cases ms with
  | nil => simp [dumpsMembersTail, notDigitStart, isDigitCode]
  | cons m t => simp [dumpsMembersTail, notDigitStart, isDigitCode]

theorem sepOK_of_notDigitStart (v : Json) (rest : List Nat)
    (h : notDigitStart rest = true) : sepOK v rest = true := by
  cases v <;> simp [sepOK, h]

theorem json_sizeOf_pos (v : Json) : 1 ≤ sizeOf v := by
  cases v <;> simp <;> omega

theorem jfuel_pos (v : Json) : 1 ≤ jfuel v := by
  cases v <;> simp [jfuel]

/-! ## The serializer/reader round trip -/

theorem read_dumps_all (N : Nat) :
    (∀ v : Json, sizeOf v ≤ N → Json.valid v = true → ∀ f, jfuel v ≤ f →
      ∀ rest, sepOK v rest = true →
        readVal f (dumps v ++ rest) = some (v, rest)) ∧
    (∀ xs : List Json, sizeOf xs ≤ N → Json.validElems xs = true → xs ≠ [] →
      ∀ f, jfuelElems xs ≤ f → ∀ rest,
        readElems f (dumpsElems xs ++ (93 :: rest)) = some (xs, rest)) ∧
    (∀ ms : List (List Nat × Json), sizeOf ms ≤ N → Json.validMembers ms = true →
      ms ≠ [] → ∀ f, jfuelMembers ms ≤ f → ∀ rest,
        readMembers f (dumpsMembers ms ++ (125 :: rest)) = some (ms, rest)) := by
  induction N using Nat.strong_induction_on with
  | _ N IH =>
  refine ⟨?_, ?_, ?_⟩
  · -- values
    intro v hN hvalid f hf rest hsep
    have hpos := jfuel_pos v
    cases f with
    | zero => omega
    | succ f =>
    cases v with
    | null => simp [dumps, readVal]
    | bool b => cases b <;> simp [dumps, readVal]
    | num n =>
        simp only [sepOK] at hsep
        by_cases hn : n < 0
        · obtain ⟨d, t, hd, h1, h2⟩ := natDigits_head n.natAbs
          have hkey : readDigits (d - 48) (t ++ rest) = (n.natAbs, rest) := by
            have h0 := readDigits_natDigits n.natAbs rest hsep
            rw [hd, List.cons_append, readDigits,
              if_pos (by simp [isDigitCode]; omega)] at h0
            simpa using h0
          simp only [dumps, numCodes, if_pos hn, List.cons_append]
          simp only [readVal]
          rw [hd]
          simp only [List.cons_append]
          norm_num
          rw [hkey]
          exact ⟨by simp [isDigitCode]; omega, by show (-(n.natAbs : Int)) = n; omega,
            rfl⟩
        · obtain ⟨d, t, hd, h1, h2⟩ := natDigits_head n.toNat
          have hkey : readDigits (d - 48) (t ++ rest) = (n.toNat, rest) := by
            have h0 := readDigits_natDigits n.toNat rest hsep
            rw [hd, List.cons_append, readDigits,
              if_pos (by simp [isDigitCode]; omega)] at h0
            simpa using h0
          simp only [dumps, numCodes, if_neg hn, hd, List.cons_append]
          simp only [readVal]
          rw [if_neg (show d ≠ 110 by omega), if_neg (show d ≠ 116 by omega),
            if_neg (show d ≠ 102 by omega), if_neg (show d ≠ 34 by omega),
            if_neg (show d ≠ 91 by omega), if_neg (show d ≠ 123 by omega),
            if_neg (show d ≠ 45 by omega), if_pos (by simp [isDigitCode]; omega)]
          simp only [hkey, Option.some.injEq, Prod.mk.injEq, Json.num.injEq, and_true]
          omega
    | str s =>
        simp only [Json.valid] at hvalid
        simp only [dumps, List.cons_append, List.append_assoc, List.singleton_append]
        simp only [readVal]
        norm_num
        rw [readStrBody_escape s hvalid _ rest (by
          have := escapeStr_length_ge s
          simp [List.length_append]
          omega)]
    | arr xs =>
        cases xs with
        | nil => simp [dumps, dumpsElems, readVal]
        | cons x xs =>
            simp only [Json.valid] at hvalid
            obtain ⟨c0, t0, hd0, hc0⟩ := dumps_head x
            have hS2 := (IH (sizeOf (x :: xs)) (by
              rw [Json.arr.sizeOf_spec] at hN
              omega)).2.1
            have hread := hS2 (x :: xs) le_rfl hvalid (by simp) f (by
              simp only [jfuel] at hf
              omega) rest
            have hshape : dumps (Json.arr (x :: xs)) ++ rest
                = 91 :: (c0 :: (t0 ++ (dumpsElemsTail xs ++ 93 :: rest))) := by
              simp [dumps, dumpsElems, hd0, List.cons_append, List.append_assoc]
            rw [hshape]
            simp only [readVal]
            norm_num
            rw [if_neg (by omega)]
            have hshape2 : c0 :: (t0 ++ (dumpsElemsTail xs ++ 93 :: rest))
                = dumpsElems (x :: xs) ++ 93 :: rest := by
              simp [dumpsElems, hd0, List.cons_append, List.append_assoc]
            rw [hshape2, hread]
            rfl
    | obj ms =>
        cases ms with
        | nil => simp [dumps, dumpsMembers, readVal]
        | cons m ms =>
            simp only [Json.valid] at hvalid
            have hS3 := (IH (sizeOf (m :: ms)) (by
              rw [Json.obj.sizeOf_spec] at hN
              omega)).2.2
            have hread := hS3 (m :: ms) le_rfl hvalid (by simp) f (by
              simp only [jfuel] at hf
              omega) rest
            have hshape : dumps (Json.obj (m :: ms)) ++ rest
                = 123 :: (34 :: (escapeStr m.1 ++ (34 :: 58 :: 32 :: (dumps m.2
                    ++ (dumpsMembersTail ms ++ 125 :: rest))))) := by
              simp [dumps, dumpsMembers, memberCodes, List.cons_append,
                List.append_assoc]
            rw [hshape]
            simp only [readVal]
            norm_num
            have hshape2 : (34 : Nat) :: (escapeStr m.1 ++ (34 :: 58 :: 32 ::
                (dumps m.2 ++ (dumpsMembersTail ms ++ 125 :: rest))))
                = dumpsMembers (m :: ms) ++ 125 :: rest := by
              simp [dumpsMembers, memberCodes, List.cons_append, List.append_assoc]
            rw [hshape2, hread]
  · -- element lists
    intro xs hN hvalid hne f hf rest
    cases xs with
    | nil => exact absurd rfl hne
    | cons x xs =>
    cases f with
    | zero =>
        simp only [jfuelElems] at hf
        omega
    | succ f =>
    simp only [Json.validElems, Bool.and_eq_true] at hvalid
    have hS1 := (IH (sizeOf x) (by simp at hN; omega)).1
    have hx := hS1 x le_rfl hvalid.1 f (by simp only [jfuelElems] at hf; omega)
      (dumpsElemsTail xs ++ 93 :: rest)
      (sepOK_of_notDigitStart _ _ (notDigitStart_elemsTail xs rest))
    simp only [dumpsElems, List.append_assoc]
    simp only [readElems]
    rw [hx]
    simp only [Option.bind_eq_bind, Option.some_bind]
    cases xs with
    | nil => simp [dumpsElemsTail]
    | cons y ys =>
        simp only [dumpsElemsTail, List.cons_append]
        norm_num
        have hS2b := (IH (sizeOf (y :: ys)) (by simp at hN ⊢; omega)).2.1
        have hys := hS2b (y :: ys) le_rfl hvalid.2 (by simp) f
          (by simp only [jfuelElems] at hf ⊢; omega) rest
        rw [← List.append_assoc, ← dumpsElems, hys]
  · -- member lists
    intro ms hN hvalid hne f hf rest
    cases ms with
    | nil => exact absurd rfl hne
    | cons m ms =>
    obtain ⟨k, v⟩ := m
    cases f with
    | zero =>
        simp only [jfuelMembers] at hf
        omega
    | succ f =>
    simp only [Json.validMembers, Bool.and_eq_true] at hvalid
    have hS1 := (IH (sizeOf v) (by simp at hN; omega)).1
    have hv := hS1 v le_rfl hvalid.1.2 f (by simp only [jfuelMembers] at hf; omega)
      (dumpsMembersTail ms ++ 125 :: rest)
      (sepOK_of_notDigitStart _ _ (notDigitStart_membersTail ms rest))
    have hk := readStrBody_escape k hvalid.1.1
      ((escapeStr k ++ (34 :: (58 :: 32 :: (dumps v
          ++ (dumpsMembersTail ms ++ 125 :: rest))))).length + 1)
      (58 :: 32 :: (dumps v ++ (dumpsMembersTail ms ++ 125 :: rest)))
      (by
        have := escapeStr_length_ge k
        simp [List.length_append]
        omega)
    simp only [dumpsMembers, memberCodes, List.cons_append, List.append_assoc,
      List.nil_append]
    simp only [readMembers]
    rw [if_pos trivial]
    rw [hk]
    simp only [Option.bind_eq_bind, Option.some_bind]
    rw [hv]
    simp only [Option.bind_eq_bind, Option.some_bind]
    cases ms with
    | nil => simp [dumpsMembersTail]
    | cons m2 ms2 =>
        simp only [dumpsMembersTail, List.cons_append]
        norm_num
        have hS3b := (IH (sizeOf (m2 :: ms2)) (by simp at hN ⊢; omega)).2.2
        have hms := hS3b (m2 :: ms2) le_rfl hvalid.2 (by simp) f
          (by simp only [jfuelMembers] at hf ⊢; omega) rest
        rw [← List.append_assoc, ← dumpsMembers, hms]

/-! ## The fuel measure is bounded by the serialized length -/

theorem jfuel_le_dumps_all (N : Nat) :
    (∀ v : Json, sizeOf v ≤ N → jfuel v ≤ (dumps v).length) ∧
    (∀ xs : List Json, sizeOf xs ≤ N → jfuelElems xs ≤ (dumpsElems xs).length + 1) ∧
    (∀ ms : List (List Nat × Json), sizeOf ms ≤ N →
      jfuelMembers ms ≤ (dumpsMembers ms).length + 1) := by
  induction N using Nat.strong_induction_on with
  | _ N IH =>
  refine ⟨?_, ?_, ?_⟩
  · intro v hN
    cases v with
    | null => simp [jfuel, dumps]
    | bool b => cases b <;> simp [jfuel, dumps]
    | num n =>
        by_cases hn : n < 0
        · simp [jfuel, dumps, numCodes, hn]
        · obtain ⟨d, t, hd, _, _⟩ := natDigits_head n.toNat
          simp [jfuel, dumps, numCodes, hn, hd]
    | str s => simp [jfuel, dumps]
    | arr xs =>
        have h2 := (IH (sizeOf xs) (by rw [Json.arr.sizeOf_spec] at hN; omega)).2.1
          xs le_rfl
        simp only [jfuel, dumps, List.length_cons, List.length_append,
          List.length_singleton]
        omega
    | obj ms =>
        have h3 := (IH (sizeOf ms) (by rw [Json.obj.sizeOf_spec] at hN; omega)).2.2
          ms le_rfl
        simp only [jfuel, dumps, List.length_cons, List.length_append,
          List.length_singleton]
        omega
  · intro xs hN
    cases xs with
    | nil => simp [jfuelElems, dumpsElems]
    | cons x xs =>
        have h1 := (IH (sizeOf x) (by simp at hN; omega)).1 x le_rfl
        cases xs with
        | nil =>
            simp only [jfuelElems, dumpsElems, dumpsElemsTail, List.append_nil,
              List.length_append]
            omega
        | cons y ys =>
            have h2 := (IH (sizeOf (y :: ys)) (by simp at hN ⊢; omega)).2.1
              (y :: ys) le_rfl
            simp only [jfuelElems, dumpsElems, dumpsElemsTail, List.length_append,
              List.length_cons] at h2 ⊢
            omega
  · intro ms hN
    cases ms with
    | nil => simp [jfuelMembers, dumpsMembers]
    | cons m ms =>
        obtain ⟨k, v⟩ := m
        have h1 := (IH (sizeOf v) (by simp at hN; omega)).1 v le_rfl
        cases ms with
        | nil =>
            simp only [jfuelMembers, dumpsMembers, dumpsMembersTail, memberCodes,
              List.append_nil, List.length_append, List.length_cons]
            omega
        | cons m2 ms2 =>
            have h2 := (IH (sizeOf (m2 :: ms2)) (by simp at hN ⊢; omega)).2.2
              (m2 :: ms2) le_rfl
            simp only [jfuelMembers, dumpsMembers, dumpsMembersTail, memberCodes,
              List.length_append, List.length_cons] at h2 ⊢
            omega

/-- The serializer/parser round trip on whole texts. -/
theorem parseJson_dumps (v : Json) (hv : Json.valid v = true) :
    parseJson (dumps v) = some v := by
  have hfuel : jfuel v ≤ (dumps v).length + 1 := by
    have := (jfuel_le_dumps_all (sizeOf v)).1 v le_rfl
    omega
  have h := (read_dumps_all (sizeOf v)).1 v le_rfl hv ((dumps v).length + 1)
    hfuel [] (by cases v <;> simp [sepOK, notDigitStart])
  rw [parseJson]
  rw [show dumps v ++ ([] : List Nat) = dumps v from by simp] at h
  rw [h]

/-! ## The serialized text is pure ASCII (ensure-ascii) -/

theorem hexDigit_lt (d : Nat) (h : d < 16) : hexDigit d < 128 := by
  simp only [hexDigit]
  split <;> omega

theorem hex4_ascii (c : Nat) : (hex4 c).all (fun b => b < 128) = true := by
  simp only [hex4, List.all_cons, List.all_nil, Bool.and_true, Bool.and_eq_true,
    decide_eq_true_eq]
  refine ⟨?_, ?_, ?_, ?_⟩ <;> exact hexDigit_lt _ (Nat.mod_lt _ (by norm_num))

theorem escChar_ascii (c : Nat) : (escChar c).all (fun b => b < 128) = true := by
  have h4 := hex4_ascii c
  simp only [escChar]
  split_ifs with h1 h2 h3 h5 h6 h7 h8 h9 <;>
    simp_all [List.all_cons, List.all_nil, decide_eq_true_eq] <;> omega

theorem escapeStr_ascii (s : List Nat) :
    (escapeStr s).all (fun b => b < 128) = true := by
  induction s with
  | nil => rfl
  | cons c cs ih => simp [escapeStr, List.all_append, escChar_ascii c, ih]

theorem natDigits_ascii (n : Nat) : (natDigits n).all (fun b => b < 128) = true := by
  have h := (natDigitsAux_all_digits (n + 1) n (by omega)).2
  rw [natDigits, List.all_eq_true]
  intro x hx
  have := h x hx
  simp only [decide_eq_true_eq]
  omega

theorem numCodes_ascii (n : Int) : (numCodes n).all (fun b => b < 128) = true := by
  simp only [numCodes]
  split_ifs with h
  · simp [natDigits_ascii]
  · exact natDigits_ascii _

theorem dumps_ascii_all (N : Nat) :
    (∀ v : Json, sizeOf v ≤ N → (dumps v).all (fun b => b < 128) = true) ∧
    (∀ xs : List Json, sizeOf xs ≤ N →
      (dumpsElems xs).all (fun b => b < 128) = true) ∧
    (∀ ms : List (List Nat × Json), sizeOf ms ≤ N →
      (dumpsMembers ms).all (fun b => b < 128) = true) := by
  induction N using Nat.strong_induction_on with
  | _ N IH =>
  refine ⟨?_, ?_, ?_⟩
  · intro v hN
    cases v with
    | null => rfl
    | bool b => cases b <;> rfl
    | num n => exact numCodes_ascii n
    | str s => simp [dumps, List.all_append, escapeStr_ascii]
    | arr xs =>
        have h := (IH (sizeOf xs) (by rw [Json.arr.sizeOf_spec] at hN; omega)).2.1
          xs le_rfl
        simp [dumps, List.all_append, h]
    | obj ms =>
        have h := (IH (sizeOf ms) (by rw [Json.obj.sizeOf_spec] at hN; omega)).2.2
          ms le_rfl
        simp [dumps, List.all_append, h]
  · intro xs hN
    cases xs with
    | nil => rfl
    | cons y ys =>
        have h1 := (IH (sizeOf y) (by simp at hN ⊢; omega)).1 y le_rfl
        cases ys with
        | nil => simp [dumpsElems, dumpsElemsTail, h1]
        | cons z zs =>
            have h2 := (IH (sizeOf (z :: zs)) (by simp at hN ⊢; omega)).2.1
              (z :: zs) le_rfl
            have hgoal : dumpsElems (y :: z :: zs)
                = dumps y ++ (44 :: 32 :: dumpsElems (z :: zs)) := rfl
            rw [hgoal, List.all_append]
            simp [h1, h2]
  · intro ms hN
    cases ms with
    | nil => rfl
    | cons m ms2 =>
        obtain ⟨k, v⟩ := m
        have h1 := (IH (sizeOf v) (by simp at hN ⊢; omega)).1 v le_rfl
        cases ms2 with
        | nil =>
            simp [dumpsMembers, dumpsMembersTail, memberCodes, List.all_append,
              escapeStr_ascii, h1]
        | cons m2 ms3 =>
            have h2 := (IH (sizeOf (m2 :: ms3)) (by simp at hN ⊢; omega)).2.2
              (m2 :: ms3) le_rfl
            have hgoal : dumpsMembers ((k, v) :: m2 :: ms3)
                = memberCodes k (dumps v)
                    ++ (44 :: 32 :: dumpsMembers (m2 :: ms3)) := by
              cases m2 with
              | mk k2 v2 => rfl
            rw [hgoal, List.all_append]
            simp [memberCodes, List.all_append, escapeStr_ascii, h1, h2]

theorem dumps_ascii (v : Json) : (dumps v).all (fun b => b < 128) = true :=
  (dumps_ascii_all (sizeOf v)).1 v le_rfl

theorem allBytes_dumps (v : Json) : allBytes (dumps v) = true := by
  have h := dumps_ascii v
  rw [List.all_eq_true] at h
  rw [allBytes, List.all_eq_true]
  intro x hx
  have hb := h x hx
  simp only [decide_eq_true_eq] at hb ⊢
  omega

theorem allBytes_boxSeal (shared nonce : Nat) (m : List Nat)
    (h : allBytes m = true) : allBytes (boxSeal shared nonce m) = true := by
  have hx := allBytes_xorStream shared nonce m h
  simp [boxSeal, macBytes, allBytes_append, allBytes_natToBytesLE, hx]

/-! ## Auxiliary byte-range lemma -/

theorem allBytes_set (l : List Nat) (i b : Nat) (hl : allBytes l = true)
    (hb : b < 256) : allBytes (l.set i b) = true := by
  rw [allBytes, List.all_eq_true] at hl ⊢
  intro x hx
  rcases List.mem_or_eq_of_mem_set hx with h | rfl
  · exact hl x h
  · simpa using hb

/-! ## Claim C1 -/

/-- Claim C1: seal/open round trip.  For every argument mapping, every pair
of keypairs and every nonce, sealing the mapping with the agent key for the
device public key at the head of the key list, then opening the sealed
payload with the device key and the agent public key, reproduces the
serialized mapping exactly, and parsing the serialization recovers the
mapping itself. -/
theorem C1_seal_open_round_trip (m : Json) (hm : Json.valid m = true)
    (aPriv bPriv nonce : Nat) (hn : nonce < 2 ^ 192) (rest : List Nat) :
    ∃ text,
      encrypt_arguments m (pubkey bPriv :: rest) aPriv nonce = .ok text ∧
      decrypt_response text (pubkey aPriv) bPriv = .ok (dumps m) ∧
      parseJson (dumps m) = some m := by
  have hall : allBytes (boxSeal (dhShared aPriv (pubkey bPriv)) nonce (dumps m)) = true :=
    allBytes_boxSeal _ _ _ (allBytes_dumps m)
  refine ⟨b64encode (boxSeal (dhShared aPriv (pubkey bPriv)) nonce (dumps m)),
    rfl, ?_, parseJson_dumps m hm⟩
  simp only [decrypt_response, b64decode_b64encode _ hall, dhShared_comm bPriv aPriv,
    boxOpen_boxSeal _ nonce _ hn, dumps_ascii m, if_true]

/-- Witness instance of C1 on a concrete mapping, keypair pair and nonce. -/
theorem C1_seal_open_round_trip_witness :
    Json.valid (Json.obj [(strCodes "prompt", Json.str (strCodes "hi"))]) = true ∧
    (5 : Nat) < 2 ^ 192 ∧
    (∃ text,
      encrypt_arguments (Json.obj [(strCodes "prompt", Json.str (strCodes "hi"))])
          (pubkey 3 :: []) 2 5 = .ok text ∧
      decrypt_response text (pubkey 2) 3
        = .ok (dumps (Json.obj [(strCodes "prompt", Json.str (strCodes "hi"))])) ∧
      parseJson (dumps (Json.obj [(strCodes "prompt", Json.str (strCodes "hi"))]))
        = some (Json.obj [(strCodes "prompt", Json.str (strCodes "hi"))])) :=
  ⟨by decide, by decide,
    C1_seal_open_round_trip _ (by decide) 2 3 5 (by decide) []⟩

/-! ## Claim C3 -/

/-- Claim C3: fail closed on tamper.  Flipping any single byte of a sealed
payload after the 24-byte nonce makes open fail with the constant
decryption failure; malformed base64 and a wrong-key mismatch also fail
with constant messages built only from the fixed prefix and a fixed inner
cause, never with partial plaintext or key material. -/
theorem C3_fail_closed_decrypt (aPriv bPriv cPriv nonce : Nat) (args : Json)
    (hn : nonce < 2 ^ 192) (i b : Nat) (hb : b < 256) (hi24 : 24 ≤ i)
    (hilen : i < (boxSeal (dhShared aPriv (pubkey bPriv)) nonce (dumps args)).length)
    (hchanged : (boxSeal (dhShared aPriv (pubkey bPriv)) nonce (dumps args))[i]? ≠ some b)
    (badText : List Nat) (hbad : b64decode badText = none)
    (hckey : dhShared cPriv (pubkey aPriv) ≠ dhShared aPriv (pubkey bPriv)) :
    decrypt_response
        (b64encode ((boxSeal (dhShared aPriv (pubkey bPriv)) nonce (dumps args)).set i b))
        (pubkey aPriv) bPriv
      = .error (failedDecryptMsg cryptoErrInner) ∧
    decrypt_response badText (pubkey aPriv) bPriv
      = .error (failedDecryptMsg b64ErrInner) ∧
    decrypt_response (b64encode (boxSeal (dhShared aPriv (pubkey bPriv)) nonce (dumps args)))
        (pubkey aPriv) cPriv
      = .error (failedDecryptMsg cryptoErrInner) := by
  have hsealed : allBytes (boxSeal (dhShared aPriv (pubkey bPriv)) nonce (dumps args)) = true :=
    allBytes_boxSeal _ _ _ (allBytes_dumps args)
  refine ⟨?_, ?_, ?_⟩
  · have hset : allBytes ((boxSeal (dhShared aPriv (pubkey bPriv)) nonce
        (dumps args)).set i b) = true := allBytes_set _ _ _ hsealed hb
    simp only [decrypt_response, b64decode_b64encode _ hset, dhShared_comm bPriv aPriv,
      boxOpen_set_tamper _ _ _ i b hn hi24 hilen hchanged]
  · simp only [decrypt_response, hbad]
  · simp only [decrypt_response, b64decode_b64encode _ hsealed,
      boxOpen_wrong_shared _ _ _ _ hn (dhShared_lt _ _) (dhShared_lt _ _) hckey]

/-- Witness instance of C3 on concrete keys, nonce, tamper position and
malformed text. -/
theorem C3_fail_closed_decrypt_witness :
    (7 : Nat) < 2 ^ 192 ∧
    ((boxSeal (dhShared 2 (pubkey 3)) 7 (dumps Json.null))[30]?.getD 0 + 1) % 256 < 256 ∧
    (24 : Nat) ≤ 30 ∧
    30 < (boxSeal (dhShared 2 (pubkey 3)) 7 (dumps Json.null)).length ∧
    (boxSeal (dhShared 2 (pubkey 3)) 7 (dumps Json.null))[30]?
      ≠ some (((boxSeal (dhShared 2 (pubkey 3)) 7 (dumps Json.null))[30]?.getD 0 + 1) % 256) ∧
    b64decode [33] = none ∧
    dhShared 5 (pubkey 2) ≠ dhShared 2 (pubkey 3) ∧
    (decrypt_response
        (b64encode ((boxSeal (dhShared 2 (pubkey 3)) 7 (dumps Json.null)).set 30
          (((boxSeal (dhShared 2 (pubkey 3)) 7 (dumps Json.null))[30]?.getD 0 + 1) % 256)))
        (pubkey 2) 3
      = .error (failedDecryptMsg cryptoErrInner) ∧
    decrypt_response [33] (pubkey 2) 3 = .error (failedDecryptMsg b64ErrInner) ∧
    decrypt_response (b64encode (boxSeal (dhShared 2 (pubkey 3)) 7 (dumps Json.null)))
        (pubkey 2) 5
      = .error (failedDecryptMsg cryptoErrInner)) :=
  ⟨by decide, by decide, by decide, by decide, by decide, by decide, by decide,
    C3_fail_closed_decrypt 2 3 5 7 Json.null (by decide) 30 _ (by decide) (by decide)
      (by decide) (by decide) [33] (by decide) (by decide)⟩

/-! ## Claim C4 -/

/-- Claim C4: no-device fail path.  With an empty device key list, each
sensitive call fails with the no-recipient error, and its trace records the
key fetch only: the gateway is invoked zero times and no encryption is
attempted, in the FastMCP proxy and in the legacy handler alike. -/
theorem C4_no_device_fail_path (prompt message : List Nat)
    (choices : Option (List (List Nat)))
    (backend : List Nat → GatewayArgs → Except (List Nat) (List Nat))
    (apk nonce : Nat) (req args : Json) (ctx : V1Ctx)
    (hkeys : ctx.deviceKeys = []) (hargs : extractArguments req = .ok args) :
    request_human_input prompt choices [] backend apk nonce
      = (.error (strCodes "Failed to process encrypted request: No device public keys available for encryption"),
         [ProxyEvent.fetchedDeviceKeys []]) ∧
    notify_human message [] backend apk nonce
      = (.error (strCodes "Failed to send encrypted notification: No device public keys available for encryption"),
         [ProxyEvent.fetchedDeviceKeys []]) ∧
    ProxyHandler.handle_request_human_input req ctx
      = (rpcError (reqId req) (-32600) (strCodes "No device public keys available"),
         [V1Event.fetchedDeviceKeys []]) ∧
    (request_human_input prompt choices [] backend apk nonce).2.countP
        (fun e => match e with
          | ProxyEvent.calledGateway _ _ => true
          | ProxyEvent.encryptedArguments _ => true
          | _ => false) = 0 ∧
    (ProxyHandler.handle_request_human_input req ctx).2.countP
        (fun e => match e with
          | V1Event.forwardedToBackend _ => true
          | V1Event.encryptedArguments _ => true
          | _ => false) = 0 := by
  have h3 : ProxyHandler.handle_request_human_input req ctx
      = (rpcError (reqId req) (-32600) (strCodes "No device public keys available"),
         [V1Event.fetchedDeviceKeys []]) := by
    simp [ProxyHandler.handle_request_human_input, hargs, hkeys]
  exact ⟨rfl, rfl, h3, rfl, by rw [h3]; rfl⟩

/-- Witness instance of C4 on a concrete request and context with no
device keys. -/
theorem C4_no_device_fail_path_witness :
    (V1Ctx.mk [] (fun _ _ => Except.error []) 0 0).deviceKeys = [] ∧
    extractArguments (Json.obj []) = .ok (Json.obj []) ∧
    ProxyHandler.handle_request_human_input (Json.obj [])
        (V1Ctx.mk [] (fun _ _ => Except.error []) 0 0)
      = (rpcError (reqId (Json.obj [])) (-32600)
          (strCodes "No device public keys available"),
         [V1Event.fetchedDeviceKeys []]) :=
  ⟨rfl, rfl,
    (C4_no_device_fail_path [] [] none (fun _ _ => Except.error []) 0 0 (Json.obj [])
      (Json.obj []) (V1Ctx.mk [] (fun _ _ => Except.error []) 0 0) rfl rfl).2.2.1⟩

/-! ## Claim C8 -/

/-- Claim C8: keypair persistence and permissions, as the code behaves.
With no key file present and the standard umask 0o022, ensure creates the
file with mode 0o600 and a second call returns the identical pair; the
containing directory, however, is created with the default mkdir mode
0o755, not the required 0o700 — the code never restricts the directory. -/
theorem C8_keypair_store_modes (fresh fresh2 : List Nat × List Nat) :
    ∃ s1 : KeyStoreState,
      ensure_agent_keypair fresh (KeyStoreState.mk none none 0o022) = (fresh, s1) ∧
      s1.keyFile = some (fresh, 0o600) ∧
      ensure_agent_keypair fresh2 s1 = (fresh, s1) ∧
      s1.dirMode = some 0o755 ∧
      ¬ s1.dirMode = some 0o700 := by
  refine ⟨KeyStoreState.mk (some 0o755) (some (fresh, 0o600)) 0o022,
    rfl, rfl, rfl, rfl, by simp⟩

/-! ## Claim C9 -/

/-- Claim C9: timeout budget and distinguishability.  Both backend
invocation paths carry the 15-minute (900 second) timeout; a timed-out
call surfaces as a gateway error carrying the transport timeout message,
and two failures with different transport messages stay distinguishable
to the caller. -/
theorem C9_timeout_budget :
    backendCallTimeoutSeconds = 15 * 60 ∧
    forwardToBackendTimeoutSeconds = 15 * 60 ∧
    (∀ (toolName : List Nat) (arguments : GatewayArgs)
        (transport : List Nat → GatewayArgs → Nat → TransportOutcome) (msg : List Nat),
      transport toolName arguments backendCallTimeoutSeconds = .timedOut msg →
        BackendMCPClient.call_tool toolName arguments transport
          = .error (strCodes "Failed to call tool " ++ toolName ++ strCodes ": " ++ msg)) ∧
    (∀ (toolName : List Nat) (arguments : GatewayArgs)
        (t1 t2 : List Nat → GatewayArgs → Nat → TransportOutcome) (m1 m2 : List Nat),
      t1 toolName arguments backendCallTimeoutSeconds = .timedOut m1 →
      t2 toolName arguments backendCallTimeoutSeconds = .transportFailure m2 →
      m1 ≠ m2 →
        BackendMCPClient.call_tool toolName arguments t1
          ≠ BackendMCPClient.call_tool toolName arguments t2) ∧
    (∀ (req : Json) (ctx : V1Ctx),
      ProxyHandler.forward_to_backend req ctx
        = ctx.transport req forwardToBackendTimeoutSeconds) := by
  refine ⟨rfl, rfl, ?_, ?_, fun _ _ => rfl⟩
  · intro toolName arguments transport msg h
    simp only [BackendMCPClient.call_tool, h]
  · intro toolName arguments t1 t2 m1 m2 h1 h2 hne
    simp only [BackendMCPClient.call_tool, h1, h2]
    intro h
    apply hne
    have h3 := Except.error.inj h
    exact List.append_cancel_left h3

/-- Witness instance of C9 on concrete transports that time out and fail. -/
theorem C9_timeout_budget_witness :
    ((fun (_ : List Nat) (_ : GatewayArgs) (_ : Nat) => TransportOutcome.timedOut (strCodes "t"))
        (strCodes "n") (GatewayArgs.jsonArgs Json.null) backendCallTimeoutSeconds
      = TransportOutcome.timedOut (strCodes "t")) ∧
    ((fun (_ : List Nat) (_ : GatewayArgs) (_ : Nat) => TransportOutcome.transportFailure (strCodes "f"))
        (strCodes "n") (GatewayArgs.jsonArgs Json.null) backendCallTimeoutSeconds
      = TransportOutcome.transportFailure (strCodes "f")) ∧
    strCodes "t" ≠ strCodes "f" ∧
    BackendMCPClient.call_tool (strCodes "n") (GatewayArgs.jsonArgs Json.null)
        (fun _ _ _ => TransportOutcome.timedOut (strCodes "t"))
      ≠ BackendMCPClient.call_tool (strCodes "n") (GatewayArgs.jsonArgs Json.null)
        (fun _ _ _ => TransportOutcome.transportFailure (strCodes "f")) :=
  ⟨rfl, rfl, by decide,
    C9_timeout_budget.2.2.2.1 (strCodes "n") (GatewayArgs.jsonArgs Json.null)
      (fun _ _ _ => TransportOutcome.timedOut (strCodes "t"))
      (fun _ _ _ => TransportOutcome.transportFailure (strCodes "f"))
      (strCodes "t") (strCodes "f") rfl rfl (by decide)⟩

/-! ## Claim C10 -/

/-- Claim C10: constant notification acknowledgment.  Whenever the backend
invocation of the encrypted notify variant succeeds, the FastMCP notify
tool returns the fixed success string; the whole observable outcome is
identical for two backends returning different payloads, and the trace
never records a decryption attempt. -/
theorem C10_notify_fixed_ack (message : List Nat) (dk : Nat) (rest : List Nat)
    (backend backend2 : List Nat → GatewayArgs → Except (List Nat) (List Nat))
    (apk nonce : Nat) (r1 r2 : List Nat)
    (h1 : backend (strCodes "notify_human_e2ee") (.encryptedPayload (b64encode
        (boxSeal (dhShared apk dk) nonce (dumps (.obj [(strCodes "message", .str message)])))))
      = .ok r1)
    (h2 : backend2 (strCodes "notify_human_e2ee") (.encryptedPayload (b64encode
        (boxSeal (dhShared apk dk) nonce (dumps (.obj [(strCodes "message", .str message)])))))
      = .ok r2) :
    (notify_human message (dk :: rest) backend apk nonce).1
      = .ok (strCodes "Notification sent successfully") ∧
    notify_human message (dk :: rest) backend apk nonce
      = notify_human message (dk :: rest) backend2 apk nonce ∧
    ProxyEvent.attemptedDecrypt ∉ (notify_human message (dk :: rest) backend apk nonce).2 := by
  have key : ∀ (b : List Nat → GatewayArgs → Except (List Nat) (List Nat)) (r : List Nat),
      b (strCodes "notify_human_e2ee") (.encryptedPayload (b64encode
        (boxSeal (dhShared apk dk) nonce (dumps (.obj [(strCodes "message", .str message)])))))
        = .ok r →
      notify_human message (dk :: rest) b apk nonce
        = (.ok (strCodes "Notification sent successfully"),
           [ProxyEvent.fetchedDeviceKeys (dk :: rest),
            ProxyEvent.encryptedArguments (b64encode (boxSeal (dhShared apk dk) nonce
              (dumps (.obj [(strCodes "message", .str message)])))),
            ProxyEvent.calledGateway (strCodes "notify_human_e2ee")
              (.encryptedPayload (b64encode (boxSeal (dhShared apk dk) nonce
                (dumps (.obj [(strCodes "message", .str message)])))))]) := by
    intro b r hb
    simp only [notify_human, encrypt_arguments, List.isEmpty_cons, List.headD_cons,
      Bool.false_eq_true, if_false, hb, List.cons_append, List.nil_append]
  rw [key backend r1 h1, key backend2 r2 h2]
  refine ⟨rfl, rfl, ?_⟩
  simp

/-- Witness instance of C10 on two concrete backends with different
acknowledgment payloads. -/
theorem C10_notify_fixed_ack_witness :
    ((fun (_ : List Nat) (_ : GatewayArgs) =>
        (Except.ok (strCodes "A") : Except (List Nat) (List Nat)))
        (strCodes "notify_human_e2ee") (.encryptedPayload (b64encode
          (boxSeal (dhShared 2 7) 5 (dumps (.obj [(strCodes "message", .str (strCodes "m"))])))))
      = .ok (strCodes "A")) ∧
    (notify_human (strCodes "m") [7]
        (fun _ _ => (Except.ok (strCodes "A") : Except (List Nat) (List Nat))) 2 5).1
      = .ok (strCodes "Notification sent successfully") :=
  ⟨rfl,
    (C10_notify_fixed_ack (strCodes "m") 7 []
      (fun _ _ => (Except.ok (strCodes "A") : Except (List Nat) (List Nat)))
      (fun _ _ => (Except.ok (strCodes "B") : Except (List Nat) (List Nat)))
      2 5 (strCodes "A") (strCodes "B") rfl rfl).1⟩

/-! ## Claim C6 -/

/-- Claim C6: pass-through transparency.  A tools/call request for any
name other than the intercepted sensitive tool reaches the backend
verbatim with the 15-minute timeout, its result is returned unchanged,
and the trace shows the single verbatim forward with no cryptography. -/
theorem C6_pass_through_transparency (line : List Nat) (ctx : V1Ctx)
    (ms pms : List (List Nat × Json)) (n : List Nat)
    (hline : parseJson line = some (Json.obj ms))
    (hm : jsonGet (Json.obj ms) (strCodes "method")
      = some (.str (strCodes "tools/call")))
    (hp : (jsonGet (Json.obj ms) (strCodes "params")).getD (.obj []) = .obj pms)
    (hnm : jsonGet (.obj pms) (strCodes "name") = some (.str n))
    (hns : n ≠ strCodes "request_human_input") :
    ProxyHandler.handle_mcp_request line ctx
      = (match ctx.transport (Json.obj ms) forwardToBackendTimeoutSeconds with
         | .ok resp => (.ok resp, [V1Event.forwardedToBackend (Json.obj ms)])
         | .error e => (.error e, [V1Event.forwardedToBackend (Json.obj ms)])) := by
  simp only [ProxyHandler.handle_mcp_request, hline, hm, hp, hnm]
  rw [if_pos trivial, if_neg hns]
  simp only [ProxyHandler.forward_to_backend]
  rw [if_neg (show ¬ strCodes "tools/call" = strCodes "tools/list" from by decide)]

/-- Witness instance of C6 on a concrete non-sensitive tools/call
request. -/
theorem C6_pass_through_transparency_witness :
    parseJson (dumps (Json.obj [(strCodes "method", .str (strCodes "tools/call")),
        (strCodes "params", .obj [(strCodes "name", .str (strCodes "echo"))])]))
      = some (Json.obj [(strCodes "method", .str (strCodes "tools/call")),
          (strCodes "params", .obj [(strCodes "name", .str (strCodes "echo"))])]) ∧
    strCodes "echo" ≠ strCodes "request_human_input" ∧
    ProxyHandler.handle_mcp_request
        (dumps (Json.obj [(strCodes "method", .str (strCodes "tools/call")),
          (strCodes "params", .obj [(strCodes "name", .str (strCodes "echo"))])]))
        (V1Ctx.mk [] (fun r _ => Except.ok r) 0 0)
      = (match (V1Ctx.mk [] (fun r _ => Except.ok r) 0 0).transport
            (Json.obj [(strCodes "method", .str (strCodes "tools/call")),
              (strCodes "params", .obj [(strCodes "name", .str (strCodes "echo"))])])
            forwardToBackendTimeoutSeconds with
         | .ok resp => (.ok resp,
            [V1Event.forwardedToBackend (Json.obj [(strCodes "method", .str (strCodes "tools/call")),
              (strCodes "params", .obj [(strCodes "name", .str (strCodes "echo"))])])])
         | .error e => (.error e,
            [V1Event.forwardedToBackend (Json.obj [(strCodes "method", .str (strCodes "tools/call")),
              (strCodes "params", .obj [(strCodes "name", .str (strCodes "echo"))])])])) :=
  ⟨rfl, by decide,
    C6_pass_through_transparency _ _ _ _ _ rfl rfl rfl rfl (by decide)⟩

/-! ## Claim C7 -/

/-- Claim C7: process liveness and clean shutdown.  The loop produces one
response per non-blank input line and no more; a line that fails to parse
is answered with the structured parse error response and the loop
continues with the remaining lines; the loop ends exactly when the input
list ends, returning the empty output on the empty input. -/
theorem C7_loop_liveness (lines : List (List Nat)) (ctx : V1Ctx) :
    ProxyHandler.start_proxy_loop [] ctx = [] ∧
    (ProxyHandler.start_proxy_loop lines ctx).length
      = lines.countP (fun l => !(stripLine l).isEmpty) ∧
    (∀ line rest, (stripLine line).isEmpty = false →
      parseJson (stripLine line) = none →
      ProxyHandler.start_proxy_loop (line :: rest) ctx
        = rpcError .null (-32700) (strCodes "Parse error - Invalid JSON")
            :: ProxyHandler.start_proxy_loop rest ctx) := by
  refine ⟨rfl, ?_, ?_⟩
  · induction lines with
    | nil => rfl
    | cons l rest ih =>
        by_cases hl : (stripLine l).isEmpty
        · simp [ProxyHandler.start_proxy_loop, hl, List.countP_cons, ih]
        · simp only [ProxyHandler.start_proxy_loop]
          rw [if_neg hl]
          cases h : (ProxyHandler.handle_mcp_request (stripLine l) ctx).1 <;>
            simp [List.countP_cons, hl, ih]
  · intro line rest hstrip hparse
    have hhandle : (ProxyHandler.handle_mcp_request (stripLine line) ctx).1
        = .ok (rpcError .null (-32700) (strCodes "Parse error - Invalid JSON")) := by
      simp [ProxyHandler.handle_mcp_request, hparse]
    simp only [ProxyHandler.start_proxy_loop, hstrip, Bool.false_eq_true, if_false,
      hhandle]

/-- Witness instance of C7 on a concrete unparsable line. -/
theorem C7_loop_liveness_witness :
    (stripLine (strCodes "x")).isEmpty = false ∧
    parseJson (stripLine (strCodes "x")) = none ∧
    ProxyHandler.start_proxy_loop [strCodes "x"] (V1Ctx.mk [] (fun _ _ => Except.error []) 0 0)
      = [rpcError .null (-32700) (strCodes "Parse error - Invalid JSON")] :=
  ⟨by decide, rfl,
    (C7_loop_liveness [strCodes "x"] (V1Ctx.mk [] (fun _ _ => Except.error []) 0 0)).2.2
      (strCodes "x") [] (by decide) rfl⟩

/-! ## Claim C2 -/

/-- Claim C2 counterexample: the catalog filtering claim fails on the
FastMCP proxy because backend tools are never registered at all.  With a
backend catalog holding the plain name echo and its encrypted variant
echo_e2ee, the list_tools output does not contain echo: the registration
function exists but is never invoked, so the output holds only the two
local sensitive tools. -/
theorem C2_catalog_filtering_counterexample :
    (([ToolDescr.mk (strCodes "echo") [], ToolDescr.mk (strCodes "echo_e2ee") []]).map
        ToolDescr.name).contains (strCodes "echo") = true ∧
    (([ToolDescr.mk (strCodes "echo") [], ToolDescr.mk (strCodes "echo_e2ee") []]).map
        ToolDescr.name).contains (strCodes "echo" ++ e2eeSuffix) = true ∧
    hasE2eeSuffix (strCodes "echo") = false ∧
    (fastmcpCatalog.map ToolDescr.name).contains (strCodes "echo") = false := by
  refine ⟨by decide, by decide, by decide, by decide⟩

/-- Claim C2 (amended): the FastMCP list_tools output is exactly the two
locally-defined sensitive tool names, each once and never a suffixed
name, independent of the backend catalog — backend tools never appear
because `register_backend_tools` is never invoked.  That function, were
it called, would keep exactly the backend descriptors whose name is free
of the suffix and not locally implemented; and the legacy handler's
filter keeps exactly the descriptors whose name lacks the suffix. -/
theorem C2_catalog_filtering_amended :
    fastmcpCatalog.map ToolDescr.name = implementedTools ∧
    (∀ t ∈ fastmcpCatalog, hasE2eeSuffix t.name = false) ∧
    (∀ nm ∈ implementedTools, (fastmcpCatalog.map ToolDescr.name).count nm = 1) ∧
    (∀ (backendTools : List ToolDescr) (t : ToolDescr),
      t ∈ register_backend_tools backendTools ↔
        t ∈ backendTools ∧ hasE2eeSuffix t.name = false ∧
          t.name ∉ implementedTools) ∧
    (∀ (ts filtered : List Json),
      ProxyHandler.filterPlaintextTools ts = .ok filtered →
      (∀ t ∈ filtered, ∃ nm, toolNameStr t = .ok nm ∧ hasE2eeSuffix nm = false) ∧
      (∀ t ∈ ts, ∀ nm, toolNameStr t = .ok nm → hasE2eeSuffix nm = false →
        t ∈ filtered)) := by
  refine ⟨by decide, by decide, by decide, ?_, ?_⟩
  · intro bts t
    simp only [register_backend_tools]
    rw [List.mem_filter]
    constructor
    · rintro ⟨h1, h2⟩
      rw [Bool.and_eq_true] at h2
      refine ⟨h1, ?_, ?_⟩
      · cases hs : hasE2eeSuffix t.name with
        | false => rfl
        | true =>
            have h3 := h2.1
            rw [hs] at h3
            simp at h3
      · intro hmem
        have h4 := h2.2
        have h5 : implementedTools.contains t.name = true := by simpa using hmem
        rw [h5] at h4
        simp at h4
    · rintro ⟨h1, h2, h3⟩
      refine ⟨h1, ?_⟩
      rw [Bool.and_eq_true]
      constructor
      · rw [h2]
        rfl
      · simp [h3]
  · intro ts
    induction ts with
    | nil =>
        intro filtered hf
        simp only [ProxyHandler.filterPlaintextTools] at hf
        cases hf
        exact ⟨by simp, by simp⟩
    | cons t ts ih =>
        intro filtered hf
        simp only [ProxyHandler.filterPlaintextTools] at hf
        cases t with
        | null => simp at hf
        | bool b => simp at hf
        | num n => simp at hf
        | str s2 => simp at hf
        | arr xs => simp at hf
        | obj tms =>
            cases hname : toolNameStr (Json.obj tms) with
            | error e => simp only [hname] at hf; simp at hf
            | ok nm0 =>
                simp only [hname] at hf
                cases hrec : ProxyHandler.filterPlaintextTools ts with
                | error e => simp only [hrec, Except.map] at hf; simp at hf
                | ok rest0 =>
                    simp only [hrec, Except.map, Except.ok.injEq] at hf
                    obtain ⟨ihA, ihB⟩ := ih rest0 hrec
                    cases hs : hasE2eeSuffix nm0 with
                    | true =>
                        rw [hs, if_pos rfl] at hf
                        subst hf
                        refine ⟨ihA, ?_⟩
                        intro u hu nm hnm hsfx
                        rcases List.mem_cons.mp hu with rfl | hu2
                        · rw [hname] at hnm
                          cases hnm
                          rw [hs] at hsfx
                          cases hsfx
                        · exact ihB u hu2 nm hnm hsfx
                    | false =>
                        rw [hs] at hf
                        simp only [Bool.false_eq_true, if_false] at hf
                        subst hf
                        constructor
                        · intro u hu
                          rcases List.mem_cons.mp hu with rfl | hu2
                          · exact ⟨nm0, hname, hs⟩
                          · exact ihA u hu2
                        · intro u hu nm hnm hsfx
                          rcases List.mem_cons.mp hu with rfl | hu2
                          · exact List.mem_cons_self _ _
                          · exact List.mem_cons_of_mem _ (ihB u hu2 nm hnm hsfx)

/-- Witness instance of the amended C2 on a concrete catalog member and a
concrete would-be backend registration. -/
theorem C2_catalog_filtering_amended_witness :
    (ToolDescr.mk (strCodes "request_human_input")
        (strCodes "Request input from human with transparent E2EE encryption.")
      ∈ fastmcpCatalog) ∧
    hasE2eeSuffix (ToolDescr.mk (strCodes "request_human_input")
        (strCodes "Request input from human with transparent E2EE encryption.")).name
      = false ∧
    (ToolDescr.mk (strCodes "echo") []
        ∈ register_backend_tools [ToolDescr.mk (strCodes "echo") []] ↔
      (ToolDescr.mk (strCodes "echo") [] ∈ [ToolDescr.mk (strCodes "echo") []] ∧
       hasE2eeSuffix (ToolDescr.mk (strCodes "echo") []).name = false ∧
       (ToolDescr.mk (strCodes "echo") []).name ∉ implementedTools)) :=
  ⟨by simp [fastmcpCatalog, localTools],
    C2_catalog_filtering_amended.2.1 _ (by simp [fastmcpCatalog, localTools]),
    C2_catalog_filtering_amended.2.2.2.1 [ToolDescr.mk (strCodes "echo") []] _⟩

/-! ## Claim C5 -/

/-- Claim C5 counterexample: the legacy dispatcher does not intercept the
notification tool.  A tools/call request naming notify_human with a
plaintext message is forwarded to the backend verbatim, with no
encryption event in the trace. -/
theorem C5_plaintext_notify_counterexample :
    ∃ (req : Json) (ctx : V1Ctx),
      jsonGet ((jsonGet req (strCodes "params")).getD (.obj [])) (strCodes "name")
        = some (.str (strCodes "notify_human")) ∧
      (ProxyHandler.handle_mcp_request (dumps req) ctx).2
        = [V1Event.forwardedToBackend req] ∧
      (ProxyHandler.handle_mcp_request (dumps req) ctx).2.countP
          (fun e => match e with
            | V1Event.encryptedArguments _ => true
            | _ => false) = 0 := by
  refine ⟨Json.obj [(strCodes "method", .str (strCodes "tools/call")),
      (strCodes "params", .obj [(strCodes "name", .str (strCodes "notify_human")),
        (strCodes "arguments", .obj [(strCodes "message", .str (strCodes "s"))])])],
    V1Ctx.mk [] (fun _ _ => Except.ok Json.null) 0 0, rfl, rfl, rfl⟩

/-- Claim C5 (amended): in the FastMCP proxy both sensitive tools apply
the encrypt-forward protocol: every gateway invocation in their traces
names the encrypted variant and carries exactly the sealed payload the
encryption step produced.  The legacy handler intercepts
request_human_input the same way: every request it forwards carries the
sealed payload as the only argument.  (Its notify_human dispatch,
by contrast, is the plain pass-through refuted above.) -/
theorem C5_sensitive_tools_encrypted_amended :
    (∀ (prompt : List Nat) (choices : Option (List (List Nat)))
        (deviceKeys : List Nat)
        (backend : List Nat → GatewayArgs → Except (List Nat) (List Nat))
        (apk nonce : Nat) (name : List Nat) (args : GatewayArgs),
      ProxyEvent.calledGateway name args
          ∈ (request_human_input prompt choices deviceKeys backend apk nonce).2 →
      name = strCodes "request_human_input_e2ee" ∧
      ∃ payload, args = GatewayArgs.encryptedPayload payload ∧
        encrypt_arguments (requestHumanInputArgs prompt choices) deviceKeys apk nonce
          = .ok payload) ∧
    (∀ (message deviceKeys : List Nat)
        (backend : List Nat → GatewayArgs → Except (List Nat) (List Nat))
        (apk nonce : Nat) (name : List Nat) (args : GatewayArgs),
      ProxyEvent.calledGateway name args
          ∈ (notify_human message deviceKeys backend apk nonce).2 →
      name = strCodes "notify_human_e2ee" ∧
      ∃ payload, args = GatewayArgs.encryptedPayload payload ∧
        encrypt_arguments (.obj [(strCodes "message", .str message)]) deviceKeys apk nonce
          = .ok payload) ∧
    (∀ (req : Json) (ctx : V1Ctx) (r : Json),
      V1Event.forwardedToBackend r ∈ (ProxyHandler.handle_request_human_input req ctx).2 →
      ∃ payload args,
        extractArguments req = .ok args ∧
        encrypt_arguments args ctx.deviceKeys ctx.agentPrivateKey ctx.nonce = .ok payload ∧
        jsonGet ((jsonGet r (strCodes "params")).getD (.obj [])) (strCodes "arguments")
          = some (.obj [(strCodes "encrypted_payload", .str payload)])) := by
  refine ⟨?_, ?_, ?_⟩
  · intro prompt choices deviceKeys backend apk nonce name args hmem
    cases deviceKeys with
    | nil => simp [request_human_input] at hmem
    | cons k ks =>
        simp only [request_human_input, encrypt_arguments, List.isEmpty_cons,
          List.headD_cons, Bool.false_eq_true, if_false] at hmem
        cases hb : backend (strCodes "request_human_input_e2ee")
            (GatewayArgs.encryptedPayload (b64encode (boxSeal (dhShared apk k) nonce
              (dumps (requestHumanInputArgs prompt choices))))) with
        | error e =>
            simp only [hb] at hmem
            simp only [List.cons_append, List.nil_append, List.mem_cons,
              List.not_mem_nil, or_false] at hmem
            rcases hmem with h | h | h
            · cases h
            · cases h
            · cases h
              exact ⟨rfl, _, rfl, rfl⟩
        | ok resp =>
            simp only [hb] at hmem
            cases hd : decrypt_response resp k apk with
            | ok plain =>
                simp only [hd] at hmem
                simp only [List.cons_append, List.nil_append, List.append_assoc,
                  List.mem_cons, List.mem_append, List.mem_singleton,
                  List.not_mem_nil, or_false] at hmem
                rcases hmem with h | h | h | h
                · cases h
                · cases h
                · cases h
                  exact ⟨rfl, _, rfl, rfl⟩
                · cases h
            | error e =>
                simp only [hd] at hmem
                simp only [List.cons_append, List.nil_append, List.append_assoc,
                  List.mem_cons, List.mem_append, List.mem_singleton,
                  List.not_mem_nil, or_false] at hmem
                rcases hmem with h | h | h | h
                · cases h
                · cases h
                · cases h
                  exact ⟨rfl, _, rfl, rfl⟩
                · cases h
  · intro message deviceKeys backend apk nonce name args hmem
    cases deviceKeys with
    | nil => simp [notify_human] at hmem
    | cons k ks =>
        simp only [notify_human, encrypt_arguments, List.isEmpty_cons,
          List.headD_cons, Bool.false_eq_true, if_false] at hmem
        cases hb : backend (strCodes "notify_human_e2ee")
            (GatewayArgs.encryptedPayload (b64encode (boxSeal (dhShared apk k) nonce
              (dumps (.obj [(strCodes "message", .str message)]))))) with
        | error e =>
            simp only [hb] at hmem
            simp only [List.cons_append, List.nil_append, List.mem_cons,
              List.not_mem_nil, or_false] at hmem
            rcases hmem with h | h | h
            · cases h
            · cases h
            · cases h
              exact ⟨rfl, _, rfl, rfl⟩
        | ok resp =>
            simp only [hb] at hmem
            simp only [List.cons_append, List.nil_append, List.mem_cons,
              List.not_mem_nil, or_false] at hmem
            rcases hmem with h | h | h
            · cases h
            · cases h
            · cases h
              exact ⟨rfl, _, rfl, rfl⟩
  · intro req ctx r hv
    cases hargs : extractArguments req with
    | error e =>
        simp only [ProxyHandler.handle_request_human_input, hargs] at hv
        simp at hv
    | ok args =>
        simp only [ProxyHandler.handle_request_human_input, hargs] at hv
        cases hkeys : ctx.deviceKeys.isEmpty with
        | true =>
            rw [hkeys] at hv
            simp at hv
        | false =>
            rw [hkeys] at hv
            simp only [Bool.false_eq_true, if_false] at hv
            cases henc : encrypt_arguments args ctx.deviceKeys ctx.agentPrivateKey
                ctx.nonce with
            | error e =>
                simp only [henc] at hv
                simp at hv
            | ok payload =>
                simp only [henc] at hv
                have hr : r = Json.obj [(strCodes "jsonrpc", Json.str (strCodes "2.0")),
                    (strCodes "id", reqId req),
                    (strCodes "method", Json.str (strCodes "tools/call")),
                    (strCodes "params", Json.obj [(strCodes "name",
                        Json.str (strCodes "request_human_input_e2ee")),
                      (strCodes "arguments", Json.obj [(strCodes "encrypted_payload",
                        Json.str payload)])])] := by
                  split at hv <;> try split at hv
                  all_goals simp at hv
                  all_goals exact hv
                refine ⟨payload, args, rfl, henc, ?_⟩
                rw [hr]
                rfl

/-- Witness instance of the amended C5 on a concrete notify call. -/
theorem C5_sensitive_tools_encrypted_witness :
    (ProxyEvent.calledGateway (strCodes "notify_human_e2ee")
        (GatewayArgs.encryptedPayload (b64encode (boxSeal (dhShared 2 7) 5
          (dumps (Json.obj [(strCodes "message", Json.str (strCodes "m"))])))))
      ∈ (notify_human (strCodes "m") [7]
          (fun _ _ => (Except.ok [] : Except (List Nat) (List Nat))) 2 5).2) ∧
    (strCodes "notify_human_e2ee" = strCodes "notify_human_e2ee" ∧
     ∃ payload,
       GatewayArgs.encryptedPayload (b64encode (boxSeal (dhShared 2 7) 5
          (dumps (Json.obj [(strCodes "message", Json.str (strCodes "m"))]))))
         = GatewayArgs.encryptedPayload payload ∧
       encrypt_arguments (Json.obj [(strCodes "message", Json.str (strCodes "m"))])
          [7] 2 5 = .ok payload) :=
  ⟨by simp [notify_human, encrypt_arguments],
    C5_sensitive_tools_encrypted_amended.2.1 (strCodes "m") [7]
      (fun _ _ => (Except.ok [] : Except (List Nat) (List Nat))) 2 5 _ _
      (by simp [notify_human, encrypt_arguments])⟩

end HitlCli